import Mathlib

/-!
Verification of the GenUI chat backend's LLM orchestration service
(`backend/services/llm.js`).

JavaScript strings are modelled as `List Char` and JavaScript values
(objects produced by `JSON.parse`, plan items, sources, provider
responses) as the inductive type `JsonValue`.  JavaScript object
operations (property access, spread merge, assignment) are modelled on
association lists in insertion order, mirroring ECMAScript semantics for
objects without duplicate keys.  Network collaborators (provider HTTP
calls, `fetchUrlMetadata`, `saveRemoteImage`, the image generators) are
passed in as explicit oracle functions, since they live outside the
core service.
-/

namespace GenUI

/-- JavaScript string, modelled as a list of characters. -/
abbrev JStr := List Char

/-- JavaScript values relevant to the service: the image of `JSON.parse`
together with the object literals the service builds itself.  Numbers
keep their source lexeme (no claim inspects numeric magnitude beyond
zero-ness). -/
inductive JsonValue where
  | jnull : JsonValue
  | jbool : Bool → JsonValue
  | jnum : JStr → JsonValue
  | jstr : JStr → JsonValue
  | jarr : List JsonValue → JsonValue
  | jobj : List (JStr × JsonValue) → JsonValue

instance : Inhabited JsonValue := ⟨JsonValue.jnull⟩

/-- Association list representation of a JavaScript object. -/
abbrev Obj := List (JStr × JsonValue)

/-- Digit test for the zero check of numeric lexemes. -/
def isDigitChar (c : Char) : Bool := '0' ≤ c && c ≤ '9'

/-- A JSON numeric lexeme denotes zero iff every mantissa digit is zero
(sign, decimal point and exponent do not affect zero-ness). -/
def numLexIsZero (lex : JStr) : Bool :=
  ((lex.takeWhile (fun c => c ≠ 'e' && c ≠ 'E')).filter isDigitChar).all (· = '0')

/-- ECMAScript truthiness of a value. -/
def jsTruthy : JsonValue → Bool
  | .jnull => false
  | .jbool b => b
  | .jnum lex => !numLexIsZero lex
  | .jstr s => !s.isEmpty
  | .jarr _ => true
  | .jobj _ => true

/-- Truthiness of a possibly absent value (`undefined` is falsy). -/
def jsTruthyOpt : Option JsonValue → Bool
  | none => false
  | some v => jsTruthy v

/-- Last binding of a key in an association list (ECMAScript keeps the
last duplicate key's value). -/
def lookupLast (l : Obj) (k : JStr) : Option JsonValue :=
  l.foldl (fun acc kv => if kv.1 = k then some kv.2 else acc) none

/-- JavaScript property read `v[k]`; `none` models `undefined`. -/
def getField (v : JsonValue) (k : JStr) : Option JsonValue :=
  match v with
  | .jobj l => lookupLast l k
  | _ => none

/-- Key membership in an object. -/
def hasKey (l : Obj) (k : JStr) : Bool :=
  l.any (fun kv => kv.1 = k)

/-- Spread merge `\x7b...a, ...b\x7d`: keys of `a` keep their position
(updated with `b`'s value when shared), then `b`'s fresh keys follow in
order. -/
def spreadObj (a b : Obj) : Obj :=
  a.map (fun kv =>
    match lookupLast b kv.1 with
    | some v => (kv.1, v)
    | none => kv)
  ++ b.filter (fun kv => !hasKey a kv.1)

/-- JavaScript assignment `o[k] = v`: update in place when the key
exists, otherwise append. -/
def setField (l : Obj) (k : JStr) (v : JsonValue) : Obj :=
  if hasKey l k then l.map (fun kv => if kv.1 = k then (kv.1, v) else kv)
  else l ++ [(k, v)]

/-- Object payload of a value; non-objects spread to no own enumerable
string-keyed properties relevant here. -/
def objOf : JsonValue → Obj
  | .jobj l => l
  | _ => []

/-- ASCII whitespace recognised by `\s` and `trim` for the inputs in
scope. -/
def jsWs (c : Char) : Bool :=
  c = ' ' || c = '\t' || c = '\n' || c = '\r' || c = '\x0b' || c = '\x0c'

/-- JavaScript `String.prototype.trim` over ASCII whitespace. -/
def jsTrim (s : JStr) : JStr :=
  (s.dropWhile jsWs).reverse.dropWhile jsWs |>.reverse

/-- ASCII-only case fold, matching the effect of the `i` regex flag on
the ASCII patterns used by the service. -/
def lowerChar (c : Char) : Char :=
  if 'A' ≤ c && c ≤ 'Z' then Char.ofNat (c.toNat + 32) else c

/-- Lower-case an entire string (ASCII). -/
def lowerStr (s : JStr) : JStr := s.map lowerChar

/-- Substring occurrence test (`String.prototype.includes`). -/
def hasSub (hay needle : JStr) : Bool :=
  match hay with
  | [] => needle.isEmpty
  | _ :: rest => needle.isPrefixOf hay || hasSub rest needle

/-- Case-insensitive substring occurrence, for `/.../i` literal
alternatives. -/
def hasSubCI (hay needle : JStr) : Bool :=
  hasSub (lowerStr hay) (lowerStr needle)

/-- Occurrence of any of several literal alternatives,
case-insensitively. -/
def hasAnyCI (hay : JStr) (needles : List JStr) : Bool :=
  needles.any (hasSubCI hay)

/-- Index of the first occurrence of a character (`indexOf`), if any. -/
def idxOfChar (s : JStr) (c : Char) : Option Nat :=
  match s with
  | [] => none
  | x :: rest =>
    if x = c then some 0
    else match idxOfChar rest c with
      | some i => some (i + 1)
      | none => none

/-- Index of the last occurrence of a character (`lastIndexOf`), if
any. -/
def lastIdxOfChar (s : JStr) (c : Char) : Option Nat :=
  match idxOfChar s.reverse c with
  | some i => some (s.length - 1 - i)
  | none => none

/-- JavaScript `substring(start, stop)` on already-ordered in-range
indices. -/
def jsSubstring (s : JStr) (start stop : Nat) : JStr :=
  (s.take stop).drop start

/-! ### JSON.parse

A fuel-indexed recursive-descent parser for the JSON grammar accepted
by `JSON.parse` (ECMA-404): this models every use of `JSON.parse` in
the service.  Fuel recursion is structural so that concrete runs reduce
by `rfl`. -/

/-- Whitespace accepted between JSON tokens. -/
def jsonWsChar (c : Char) : Bool :=
  c = ' ' || c = '\t' || c = '\n' || c = '\r'

/-- Skip inter-token whitespace. -/
def skipJsonWs (s : JStr) : JStr := s.dropWhile jsonWsChar

/-- Value of a hexadecimal digit, via code points: 48..57 are the
digits, 97..102 the lowercase and 65..70 the uppercase letters. -/
def hexVal (c : Char) : Option Nat :=
  let n := c.toNat
  if 48 ≤ n && n ≤ 57 then some (n - 48)
  else if 97 ≤ n && n ≤ 102 then some (n - 87)
  else if 65 ≤ n && n ≤ 70 then some (n - 55)
  else none

/-- Body of a JSON string literal, after the opening quote: returns the
decoded characters and the input following the closing quote.  Raw
control characters are rejected, escapes are decoded, `\u` escapes
become the code unit's character. -/
def parseStrBody : Nat → JStr → Option (JStr × JStr)
  | 0, _ => none
  | _ + 1, [] => none
  | _ + 1, '"' :: rest => some ([], rest)
  | fuel + 1, '\\' :: esc =>
    match esc with
    | '"' :: r => (parseStrBody fuel r).map (fun p => ('"' :: p.1, p.2))
    | '\\' :: r => (parseStrBody fuel r).map (fun p => ('\\' :: p.1, p.2))
    | '/' :: r => (parseStrBody fuel r).map (fun p => ('/' :: p.1, p.2))
    | 'b' :: r => (parseStrBody fuel r).map (fun p => ('\x08' :: p.1, p.2))
    | 'f' :: r => (parseStrBody fuel r).map (fun p => ('\x0c' :: p.1, p.2))
    | 'n' :: r => (parseStrBody fuel r).map (fun p => ('\n' :: p.1, p.2))
    | 'r' :: r => (parseStrBody fuel r).map (fun p => ('\r' :: p.1, p.2))
    | 't' :: r => (parseStrBody fuel r).map (fun p => ('\t' :: p.1, p.2))
    | 'u' :: h1 :: h2 :: h3 :: h4 :: r =>
      match hexVal h1, hexVal h2, hexVal h3, hexVal h4 with
      | some a, some b, some c, some d =>
        (parseStrBody fuel r).map
          (fun p => (Char.ofNat (16 * (16 * (16 * a + b) + c) + d) :: p.1, p.2))
      | _, _, _, _ => none
    | _ => none
  | fuel + 1, c :: rest =>
    if c.toNat < 0x20 then none
    else (parseStrBody fuel rest).map (fun p => (c :: p.1, p.2))

/-- Longest run of decimal digits. -/
def lexDigits (s : JStr) : JStr × JStr :=
  (s.takeWhile isDigitChar, s.dropWhile isDigitChar)

/-- Integer part of a JSON number: `0` or a nonzero digit followed by
digits. -/
def lexIntPart (s : JStr) : Option (JStr × JStr) :=
  match s with
  | '0' :: rest => some (['0'], rest)
  | c :: _ =>
    if isDigitChar c then
      let p := lexDigits s
      some (p.1, p.2)
    else none
  | [] => none

/-- Optional fraction part `.digits`. -/
def lexFracPart (s : JStr) : Option (JStr × JStr) :=
  match s with
  | '.' :: rest =>
    let p := lexDigits rest
    if p.1.isEmpty then none else some ('.' :: p.1, p.2)
  | _ => some ([], s)

/-- Optional exponent part `e[+-]digits`. -/
def lexExpPart (s : JStr) : Option (JStr × JStr) :=
  match s with
  | e :: rest =>
    if e = 'e' || e = 'E' then
      let signRest : JStr × JStr :=
        match rest with
        | '+' :: r => (['+'], r)
        | '-' :: r => (['-'], r)
        | r => ([], r)
      let p := lexDigits signRest.2
      if p.1.isEmpty then none else some (e :: signRest.1 ++ p.1, p.2)
    else some ([], s)
  | [] => some ([], s)

/-- Lex a full JSON number, returning its lexeme. -/
def lexNumber (s : JStr) : Option (JStr × JStr) :=
  let body := fun (t : JStr) (sign : JStr) =>
    match lexIntPart t with
    | none => none
    | some ip =>
      match lexFracPart ip.2 with
      | none => none
      | some fp =>
        match lexExpPart fp.2 with
        | none => none
        | some ep => some (sign ++ ip.1 ++ fp.1 ++ ep.1, ep.2)
  match s with
  | '-' :: rest => body rest ['-']
  | _ => body s []

mutual

/-- Parse one JSON value after skipping leading whitespace. -/
def parseJsonValue : Nat → JStr → Option (JsonValue × JStr)
  | 0, _ => none
  | fuel + 1, s =>
    match skipJsonWs s with
    | 'n' :: 'u' :: 'l' :: 'l' :: rest => some (.jnull, rest)
    | 't' :: 'r' :: 'u' :: 'e' :: rest => some (.jbool true, rest)
    | 'f' :: 'a' :: 'l' :: 's' :: 'e' :: rest => some (.jbool false, rest)
    | '"' :: rest =>
      (parseStrBody (rest.length + 1) rest).map (fun p => (.jstr p.1, p.2))
    | '[' :: rest => parseJsonArrItems fuel (skipJsonWs rest) []
    | '{' :: rest => parseJsonObjItems fuel (skipJsonWs rest) []
    | t => (lexNumber t).map (fun p => (.jnum p.1, p.2))

/-- Parse the items of a JSON array after `[` (whitespace already
skipped); `acc` holds the items read so far, in reverse. -/
def parseJsonArrItems : Nat → JStr → List JsonValue → Option (JsonValue × JStr)
  | 0, _, _ => none
  | _ + 1, ']' :: rest, acc =>
    if acc.isEmpty then some (.jarr [], rest) else none
  | fuel + 1, s, acc =>
    match parseJsonValue fuel s with
    | none => none
    | some (v, rest) =>
      match skipJsonWs rest with
      | ',' :: r2 => parseJsonArrItems fuel (skipJsonWs r2) (v :: acc)
      | ']' :: r2 => some (.jarr (v :: acc).reverse, r2)
      | _ => none

/-- Parse the members of a JSON object after `\x7b` (whitespace already
skipped); `acc` holds the members read so far, in reverse. -/
def parseJsonObjItems : Nat → JStr → Obj → Option (JsonValue × JStr)
  | 0, _, _ => none
  | _ + 1, '}' :: rest, acc =>
    if acc.isEmpty then some (.jobj [], rest) else none
  | fuel + 1, s, acc =>
    match s with
    | '"' :: rest =>
      match parseStrBody (rest.length + 1) rest with
      | none => none
      | some (key, afterKey) =>
        match skipJsonWs afterKey with
        | ':' :: r2 =>
          match parseJsonValue fuel (skipJsonWs r2) with
          | none => none
          | some (v, rest2) =>
            match skipJsonWs rest2 with
            | ',' :: r3 => parseJsonObjItems fuel (skipJsonWs r3) ((key, v) :: acc)
            | '}' :: r3 => some (.jobj ((key, v) :: acc).reverse, r3)
            | _ => none
        | _ => none
    | _ => none

end

/-- Model of `JSON.parse`: `none` models a thrown `SyntaxError`. -/
def jsonParse (s : JStr) : Option JsonValue :=
  match parseJsonValue (2 * s.length + 8) s with
  | some (v, rest) => if skipJsonWs rest = [] then some v else none
  | none => none

/-! ### parseResponse (`llm.js` lines 153-222)

The markdown-fence stripping, the brace-window `JSON.parse`, the regex
salvage of the `"App.js"` / `"styles.css"` fields, and the raw-code
fallback. -/

/-- First index at which `needle` occurs in `s`, if any. -/
def findSubIdx (s needle : JStr) : Option Nat :=
  match s with
  | [] => if needle.isEmpty then some 0 else none
  | _ :: rest =>
    if needle.isPrefixOf s then some 0
    else (findSubIdx rest needle).map (· + 1)

/-- Effect of `.replace(/^`​``json\s*‍/i, '')`: drop a leading
case-insensitive ```` ```json ```` fence opener and the whitespace run
after it. -/
def stripLeadFenceJson (s : JStr) : JStr :=
  if lowerStr (s.take 7) = "```json".toList then (s.drop 7).dropWhile jsWs
  else s

/-- Effect of `.replace(/^`​``\s*‍/i, '')`: drop a leading ```` ``` ````
fence opener and the whitespace run after it. -/
def stripLeadFence (s : JStr) : JStr :=
  if s.take 3 = "```".toList then (s.drop 3).dropWhile jsWs
  else s

/-- Effect of `.replace(/\s*`​``$/i, '')`: drop a trailing ```` ``` ````
fence closer together with the whitespace run before it (the leftmost
match of the anchored pattern). -/
def stripTrailFence (s : JStr) : JStr :=
  let r := s.reverse
  if r.take 3 = "```".toList then ((r.drop 3).dropWhile jsWs).reverse
  else s

/-- Captured-and-trimmed group of the first match of
``/`​``json\s*([\s\S]*?)\s*`​``/i``: the text between the first
```` ```json ```` opener and the first ```` ``` ```` after it, trimmed
(the lazy group and its whitespace borders reduce to exactly this). -/
def jsonFenceMatch (s : JStr) : Option JStr :=
  match findSubIdx (lowerStr s) ("```json".toList) with
  | none => none
  | some i =>
    let after := s.drop (i + 7)
    match findSubIdx after ("```".toList) with
    | none => none
    | some e => some (jsTrim (after.take e))

/-- The `cleaned` string of `parseResponse`: trim, strip one layer of
```` ```json ```` fencing, one layer of plain fencing, then extract an
embedded ```` ```json ```` block when present. -/
def cleanedOf (content : JStr) : JStr :=
  let c1 := stripTrailFence (stripLeadFenceJson (jsTrim content))
  let c2 := stripTrailFence (stripLeadFence c1)
  match jsonFenceMatch c2 with
  | some inner => inner
  | none => c2

/-- Maximal run matched by `(?:[^"\\]|\\.)*` followed by a mandatory
closing quote: returns the run (escapes kept verbatim) and the rest
after the quote, or `none` when no closing quote terminates the run
(regex backtracking cannot rescue such a position, as no run boundary
lands on a quote). -/
def scanEscapedRun : JStr → Option (JStr × JStr)
  | [] => none
  | '"' :: rest => some ([], rest)
  | '\\' :: c :: rest => (scanEscapedRun rest).map (fun p => ('\\' :: c :: p.1, p.2))
  | ['\\'] => none
  | c :: rest => (scanEscapedRun rest).map (fun p => (c :: p.1, p.2))

/-- Match of `"key"\s*:\s*"((?:[^"\\]|\\.)*)"` anchored at the head of
`s`, returning the captured group. -/
def fieldCaptureAt (key s : JStr) : Option JStr :=
  let lit := '"' :: (key ++ ['"'])
  if lit.isPrefixOf s then
    match (s.drop lit.length).dropWhile jsWs with
    | ':' :: r2 =>
      match r2.dropWhile jsWs with
      | '"' :: r3 => (scanEscapedRun r3).map (·.1)
      | _ => none
    | _ => none
  else none

/-- First match of `"key"\s*:\s*"((?:[^"\\]|\\.)*)"` anywhere in the
string (the regex engine's left-to-right scan). -/
def fieldCapture (key : JStr) : JStr → Option JStr
  | [] => none
  | c :: rest =>
    match fieldCaptureAt key (c :: rest) with
    | some cap => some cap
    | none => fieldCapture key rest

/-- Unescape a captured field body exactly as the source does, via
`JSON.parse` of the re-quoted capture; `none` models the throw. -/
def unescapeViaJson (cap : JStr) : Option JStr :=
  match jsonParse ('"' :: (cap ++ ['"'])) with
  | some (.jstr v) => some v
  | _ => none

/-- Key string constants of the service. -/
def keyAppJs : JStr := "App.js".toList

/-- Key `styles.css`. -/
def keyStylesCss : JStr := "styles.css".toList

/-- Key `type`. -/
def keyType : JStr := "type".toList

/-- Key `code`. -/
def keyCode : JStr := "code".toList

/-- Key `content`. -/
def keyContent : JStr := "content".toList

/-- Tag string `sandbox`. -/
def strSandbox : JStr := "sandbox".toList

/-- Tag string `message`. -/
def strMessage : JStr := "message".toList

/-- The parse-failure message literal. -/
def parseFailText : JStr := "Failed to parse app response. Please try again.".toList

/-- A `type: message` result object. -/
def messageResult (c : JsonValue) : JsonValue :=
  .jobj [(keyType, .jstr strMessage), (keyContent, c)]

/-- A synthesized `type: sandbox` result object. -/
def sandboxResult (app css : JStr) : JsonValue :=
  .jobj [(keyType, .jstr strSandbox),
         (keyCode, .jobj [(keyAppJs, .jstr app), (keyStylesCss, .jstr css)])]

/-- Check that a value's `type` field is the string `sandbox`
(JavaScript `parsed.type === 'sandbox'`). -/
def typeIsSandbox (v : JsonValue) : Bool :=
  match getField v keyType with
  | some (.jstr s) => s = strSandbox
  | _ => false

/-- Regex-salvage path of the `catch` block: extract and unescape the
two code fields; any unescape throw falls through to the generic
failure message.  Every return site of `parseResponse` is a one-element
array, so the embedding computes the single element and the wrapper
adds the list. -/
def salvageBrokenJson (cleaned : JStr) : JsonValue :=
  match fieldCapture keyAppJs cleaned with
  | some codeCap =>
    (match unescapeViaJson codeCap with
     | some appCode =>
       match fieldCapture keyStylesCss cleaned with
       | some cssCap =>
         (match unescapeViaJson cssCap with
          | some cssCode => sandboxResult appCode cssCode
          | none => messageResult (.jstr parseFailText))
       | none => sandboxResult appCode []
     | none => messageResult (.jstr parseFailText))
  | none => messageResult (.jstr parseFailText)

/-- Raw React code markers. -/
def rawCodeMarkerA : JStr := "export default function".toList

/-- Second raw React code marker. -/
def rawCodeMarkerB : JStr := "function App()".toList

/-- Body of `parseResponse` on a nonempty string input, computing the
single result element. -/
def parseResponseStr (content : JStr) : JsonValue :=
  let cleaned := cleanedOf content
  let looksLikeJson :=
    match jsTrim cleaned with
    | '{' :: _ => true
    | '[' :: _ => true
    | _ => false
  if looksLikeJson then
    match idxOfChar cleaned '{', lastIdxOfChar cleaned '}' with
    | some startIdx, some endIdx =>
      if startIdx < endIdx then
        let jsonStr := jsSubstring cleaned startIdx (endIdx + 1)
        match jsonParse jsonStr with
        | some parsed =>
          if typeIsSandbox parsed && jsTruthyOpt (getField parsed keyCode) then
            parsed
          else if jsTruthyOpt (getField parsed keyType) then parsed
          else messageResult (.jstr content)
        | none => salvageBrokenJson cleaned
      else messageResult (.jstr content)
    | _, _ => messageResult (.jstr content)
  else if hasSub cleaned rawCodeMarkerA || hasSub cleaned rawCodeMarkerB then
    sandboxResult cleaned []
  else messageResult (.jstr content)

/-- Single result element of `parseResponse`. -/
def parseResponseCore (content : JsonValue) : JsonValue :=
  match content with
  | .jstr s => if s.isEmpty then messageResult (.jstr []) else parseResponseStr s
  | v => messageResult (if jsTruthy v then v else .jstr [])

/-- Model of `parseResponse` (`llm.js` line 154): falsy or non-string
content short-circuits to a message result; every return site of the
source is a one-element array. -/
def parseResponse (content : JsonValue) : List JsonValue :=
  [parseResponseCore content]

/-! ### generateWithRepair (`llm.js` lines 1374-1407)

`callLLM` is abstracted as an oracle giving the final content text of
the turn for a given message list (the network is the only
nondeterminism; both adapters then set `parsed` to
`parseResponse(content)`). -/

/-- Conversation message as used by the repair loop. -/
structure Message where
  role : JStr
  content : JsonValue

/-- Result shape of `callLLM` as consumed by `generateWithRepair`
(`sources` and `usage` elided: the loop never reads them). -/
structure GenResult where
  content : JsonValue
  parsed : List JsonValue

/-- The generation pipeline, abstracted over the network: message list
in, content text of `callLLM`'s result out. -/
abbrev LlmOracle := List Message → JsonValue

/-- The corrective instruction appended before a retry. -/
def correctiveText : JStr :=
  ("You MUST create an interactive React app. Output ONLY valid JSON with type \"sandbox\" containing App.js and styles.css. Never respond with plain text.").toList

/-- The error note appended when `generateWithRepair` is called with a
repair error. -/
def repairErrorNote (e : JStr) : JStr :=
  "The previous code had an error. Please fix it:\n\nError: ".toList ++ e ++
  "\n\nGenerate corrected code. Output ONLY valid JSON with type \"sandbox\".".toList

/-- JavaScript `result.parsed.find(p => p.type === 'sandbox')` followed
by the `sandboxResponse?.code` truthiness check. -/
def sandboxHasCode (parsed : List JsonValue) : Bool :=
  match parsed.find? typeIsSandbox with
  | some p => jsTruthyOpt (getField p keyCode)
  | none => false

/-- The retry loop of `generateWithRepair`, indexed by the number of
remaining attempts (`maxRetries - attempt`); returns the successful
result (`none` models the final throw) paired with the number of
pipeline invocations performed. -/
def repairAttempts (oracle : LlmOracle) : Nat → List Message → Option GenResult × Nat
  | 0, _ => (none, 0)
  | remaining + 1, msgs =>
    let content := oracle msgs
    let parsed := parseResponse content
    if sandboxHasCode parsed then (some ⟨content, parsed⟩, 1)
    else
      let msgs' :=
        if remaining = 0 then msgs
        else
          msgs ++ [⟨"assistant".toList, content⟩,
                   ⟨"user".toList, .jstr correctiveText⟩]
      let r := repairAttempts oracle remaining msgs'
      (r.1, r.2 + 1)

/-- Model of `generateWithRepair`: optional error note, then the
bounded retry loop. -/
def generateWithRepair (oracle : LlmOracle) (messages : List Message)
    (error : Option JStr) (maxRetries : Nat) : Option GenResult × Nat :=
  let currentMessages :=
    match error with
    | some e =>
      if e.isEmpty then messages
      else messages ++ [⟨"user".toList, .jstr (repairErrorNote e)⟩]
    | none => messages
  repairAttempts oracle maxRetries currentMessages

/-- Membership in the parsed list pins the list down to its singleton. -/
theorem parseResponse_eq_of_mem {c : JsonValue} {p : JsonValue}
    (hp : p ∈ parseResponse c) : parseResponse c = [p] := by
  simp only [parseResponse, List.mem_singleton] at hp
  simp [parseResponse, hp]

/-- When no member of the parsed list is a sandbox element carrying
code, the loop's success test is false. -/
theorem sandboxHasCode_eq_false {parsed : List JsonValue}
    (h : ∀ p ∈ parsed,
      ¬(typeIsSandbox p = true ∧ jsTruthyOpt (getField p keyCode) = true)) :
    sandboxHasCode parsed = false := by
  unfold sandboxHasCode
  cases hf : parsed.find? typeIsSandbox with
  | none => rfl
  | some p =>
    have hmem : p ∈ parsed := List.mem_of_find?_eq_some hf
    have hty : typeIsSandbox p = true := List.find?_some hf
    have hnot := h p hmem
    cases hc : jsTruthyOpt (getField p keyCode) with
    | false => exact hc
    | true => exact absurd ⟨hty, hc⟩ hnot

/-- A sandbox-with-code member makes the loop's success test true. -/
theorem sandboxHasCode_of_singleton {p : JsonValue}
    (h1 : typeIsSandbox p = true)
    (h2 : jsTruthyOpt (getField p keyCode) = true) :
    sandboxHasCode [p] = true := by
  simp [sandboxHasCode, List.find?, h1, h2]

/-- When every pipeline answer lacks a sandbox-with-code element, every
attempt fails and the loop performs exactly its remaining budget of
calls, ending in the throw. -/
theorem repairAttempts_all_fail (oracle : LlmOracle)
    (h : ∀ ms, sandboxHasCode (parseResponse (oracle ms)) = false) :
    ∀ r msgs, repairAttempts oracle r msgs = (none, r) := by
  intro r
  induction r with
  | zero => intro msgs; rfl
  | succ n ih => intro msgs; simp [repairAttempts, h, ih]

/-- Claim C1: with `maxRetries = 3`, if every pipeline call yields a
parsed list with no sandbox element carrying code, `generateWithRepair`
invokes the pipeline exactly 3 times and then raises the fatal error
(result `none`, count `3`, never a 4th attempt); and whenever an
attempt's result does contain a sandbox element with code, that very
result is returned after that single invocation, with no further
attempts. -/
theorem generateWithRepair_retry_contract (oracle : LlmOracle)
    (messages : List Message) (error : Option JStr) :
    ((∀ ms, ∀ p ∈ parseResponse (oracle ms),
        ¬(typeIsSandbox p = true ∧ jsTruthyOpt (getField p keyCode) = true)) →
      generateWithRepair oracle messages error 3 = (none, 3))
    ∧ (∀ ms r, 0 < r →
        (∃ p ∈ parseResponse (oracle ms),
          typeIsSandbox p = true ∧ jsTruthyOpt (getField p keyCode) = true) →
        repairAttempts oracle r ms =
          (some ⟨oracle ms, parseResponse (oracle ms)⟩, 1)) := by
  constructor
  · intro h
    have hall : ∀ ms, sandboxHasCode (parseResponse (oracle ms)) = false :=
      fun ms => sandboxHasCode_eq_false (h ms)
    unfold generateWithRepair
    exact repairAttempts_all_fail oracle hall 3 _
  · intro ms r hr hex
    obtain ⟨p, hp, h1, h2⟩ := hex
    have hsing : parseResponse (oracle ms) = [p] := parseResponse_eq_of_mem hp
    have hcode : sandboxHasCode (parseResponse (oracle ms)) = true := by
      rw [hsing]; exact sandboxHasCode_of_singleton h1 h2
    cases r with
    | zero => exact absurd hr (by simp)
    | succ n => simp [repairAttempts, hcode]

/-- Concrete text that parses to a sandbox-with-code result. -/
def c1OkText : JStr :=
  "\x7b\"type\":\"sandbox\",\"code\":\x7b\"App.js\":\"x\"\x7d\x7d".toList

/-- Witness for C1 at a pipeline that always answers plain text (3
calls, then error) and at one that answers sandbox JSON (immediate
return after 1 call). -/
theorem generateWithRepair_retry_contract_witness :
    generateWithRepair (fun _ => .jstr "hello".toList) [] none 3 = (none, 3)
    ∧ repairAttempts (fun _ => .jstr c1OkText) 3 [] =
        (some ⟨.jstr c1OkText, parseResponse (.jstr c1OkText)⟩, 1) := by
  constructor
  · refine (generateWithRepair_retry_contract
      (fun _ => .jstr "hello".toList) [] none).1 ?_
    intro ms p hp
    simp only [parseResponse, List.mem_singleton] at hp
    subst hp
    intro hcon
    have : typeIsSandbox (parseResponseCore (.jstr "hello".toList)) = false := rfl
    rw [this] at hcon
    exact Bool.false_ne_true hcon.1
  · refine (generateWithRepair_retry_contract
      (fun _ => .jstr c1OkText) [] none).2 [] 3 (by norm_num) ?_
    refine ⟨parseResponseCore (.jstr c1OkText), ?_, rfl, rfl⟩
    simp [parseResponse]

/-! ### Shared value helpers and the source pipeline
(`llm.js` lines 358-375, 554-608) -/

/-- ECMAScript `String(v)` for the primitive cases; arrays and plain
objects are approximated (the data model types every coerced field as a
string, so the theorems never exercise those cases). -/
def jsToString : JsonValue → JStr
  | .jstr s => s
  | .jnull => "null".toList
  | .jbool true => "true".toList
  | .jbool false => "false".toList
  | .jnum lex => lex
  | .jarr _ => []
  | .jobj _ => "[object Object]".toList

/-- Coercion of a possibly absent value (`String(undefined)`). -/
def jsToStringOpt : Option JsonValue → JStr
  | none => "undefined".toList
  | some v => jsToString v

/-- ASCII alphanumeric test for `[^a-z0-9]/i`. -/
def isAlnum (c : Char) : Bool :=
  ('a' ≤ c && c ≤ 'z') || ('A' ≤ c && c ≤ 'Z') || isDigitChar c

/-- Global replace of `[^a-z0-9]+/gi` runs with a single dash;
`prevDash` records whether the previous output char closed such a run. -/
def collapseRuns (prevDash : Bool) : JStr → JStr
  | [] => []
  | c :: rest =>
    if isAlnum c then c :: collapseRuns false rest
    else if prevDash then collapseRuns true rest
    else '-' :: collapseRuns true rest

/-- Model of `fallbackImageUrl` (`llm.js` line 372): sanitize the seed,
cap at 60 chars, default to `genui`, and build the seeded placeholder
URL; `none` models the absent-argument default. -/
def fallbackImageUrl (seed : Option JsonValue) : JStr :=
  let seedStr := match seed with
    | none => "genui".toList
    | some v => jsToString v
  let safeSeed := (collapseRuns false seedStr).take 60
  let safeSeed := if safeSeed.isEmpty then "genui".toList else safeSeed
  "https://picsum.photos/seed/".toList ++ safeSeed ++ "/800/500".toList

/-- Key `url`. -/
def keyUrl : JStr := "url".toList

/-- Key `title`. -/
def keyTitle : JStr := "title".toList

/-- Key `name`. -/
def keyName : JStr := "name".toList

/-- Key `image`. -/
def keyImage : JStr := "image".toList

/-- Map insert of the ECMAScript `Map`: update in place when the key
exists, else append (iteration order is key-insertion order). -/
def mapSet (m : List (JStr × Obj)) (k : JStr) (v : Obj) : List (JStr × Obj) :=
  if m.any (fun kv => kv.1 = k) then
    m.map (fun kv => if kv.1 = k then (kv.1, v) else kv)
  else m ++ [(k, v)]

/-- Lookup in the `Map` model. -/
def mapGet (m : List (JStr × Obj)) (k : JStr) : Option Obj :=
  (m.find? (fun kv => kv.1 = k)).map (·.2)

/-- Truthy `url` field of a source object, when present. -/
def sourceUrl (s : Obj) : Option JStr :=
  match lookupLast s keyUrl with
  | some (.jstr u) => if u.isEmpty then none else some u
  | _ => none

/-- One step of the `dedupeSources` fold over the `Map`. -/
def dedupeStep (m : List (JStr × Obj)) (source : Obj) : List (JStr × Obj) :=
  match sourceUrl source with
  | none => m
  | some u =>
    match mapGet m u with
    | none => mapSet m u (spreadObj [] source)
    | some existing => mapSet m u (spreadObj existing source)

/-- Model of `dedupeSources` (`llm.js` line 358): key sources by truthy
`url`, shallow-merging later entries over earlier ones, and return the
values in key-insertion order.  Source objects are association lists;
an empty or absent `url` is skipped by the source's truthiness test,
and `url` is a string per the Source data model. -/
def dedupeSources (sources : List Obj) : List Obj :=
  (sources.foldl dedupeStep []).map (·.2)

/-! ### Provider response readers and tool executors
(`llm.js` lines 737-832, 1006-1030, 1146-1238) -/

/-- Key `type` equality test against a given tag. -/
def typeIs (v : JsonValue) (s : JStr) : Bool :=
  match getField v keyType with
  | some (.jstr t) => t = s
  | _ => false

/-- Strict equality of a call's `name` with a tool name. -/
def nameIs (call : JsonValue) (s : JStr) : Bool :=
  match getField call keyName with
  | some (.jstr n) => n = s
  | _ => false

/-- Key `output_text`. -/
def keyOutputText : JStr := "output_text".toList

/-- Key `output`. -/
def keyOutput : JStr := "output".toList

/-- Key `text`. -/
def keyText : JStr := "text".toList

/-- Append step for one content part of an OpenAI message item:
`if (part.type === 'output_text' || part.text) content += part.text ||
part.output_text || ''`. -/
def openAIPartAppend (acc : JStr) (part : JsonValue) : JStr :=
  if typeIs part keyOutputText || jsTruthyOpt (getField part keyText) then
    acc ++
      (if jsTruthyOpt (getField part keyText) then
        jsToStringOpt (getField part keyText)
      else if jsTruthyOpt (getField part keyOutputText) then
        jsToStringOpt (getField part keyOutputText)
      else [])
  else acc

/-- Model of `getOpenAIOutputText` (`llm.js` line 737): prefer a truthy
`output_text`, else concatenate the `output_text`/`text` parts of
`message` items of the output array. -/
def getOpenAIOutputText (data : JsonValue) : JsonValue :=
  if jsTruthyOpt (getField data keyOutputText) then
    (getField data keyOutputText).getD .jnull
  else
    .jstr
      (match getField data keyOutput with
       | some (.jarr items) =>
         items.foldl
           (fun acc item =>
             if typeIs item strMessage && jsTruthyOpt (getField item keyContent) then
               match getField item keyContent with
               | some (.jarr parts) => parts.foldl openAIPartAppend acc
               | _ => acc
             else acc)
           []
       | _ => [])

/-- Model of `extractOpenAIFunctionCalls` (`llm.js` line 756): filter
`function_call` items out of an array output; non-arrays yield none. -/
def extractOpenAIFunctionCalls (output : Option JsonValue) : List JsonValue :=
  match output with
  | some (.jarr items) => items.filter (fun item => typeIs item ("function_call".toList))
  | _ => []

/-- Items of a response's `output` array (for re-feeding into the
running input). -/
def outputItems (data : JsonValue) : List JsonValue :=
  match getField data keyOutput with
  | some (.jarr items) => items
  | _ => []

/-- Gemini `data.candidates?.[0]?.content?.parts` as an array (empty
when any link of the optional chain is absent or the parts are not an
array). -/
def geminiParts (data : JsonValue) : List JsonValue :=
  match
    (do
      let c ← getField data ("candidates".toList)
      let c0 ← (match c with | .jarr l => l.head? | _ => none)
      let ct ← getField c0 keyContent
      getField ct ("parts".toList)) with
  | some (.jarr parts) => parts
  | _ => []

/-- Model of `getGeminiText` (`llm.js` line 1006): concatenate the
truthy `text` fields of the first candidate's parts. -/
def getGeminiText (data : JsonValue) : JsonValue :=
  .jstr ((geminiParts data).foldl
    (fun acc part =>
      if jsTruthyOpt (getField part keyText) then
        acc ++ jsToStringOpt (getField part keyText)
      else acc)
    [])

/-- Model of `getGeminiFunctionCalls` (`llm.js` line 1021): collect the
truthy `functionCall` fields of the first candidate's parts. -/
def getGeminiFunctionCalls (data : JsonValue) : List JsonValue :=
  (geminiParts data).filterMap (fun part =>
    match getField part ("functionCall".toList) with
    | some fc => if jsTruthy fc then some fc else none
    | none => none)

/-- Saved-image record of the media collaborator.  Modelled from the
spec: `saveGeneratedImage(provider, base64) -> \x7bfilename, url\x7d`
(the collaborator module is outside the core source). -/
structure SavedImage where
  url : JsonValue
  filename : JsonValue

/-- Image policy record returned by `getImagePolicy`. -/
structure ImagePolicy where
  mode : JStr
  max : Nat

/-- The `imagePolicy?.mode !== 'none'` guard: an absent policy allows
image generation. -/
def allowImageGenerationOf (p : Option ImagePolicy) : Bool :=
  match p with
  | some q => q.mode ≠ "none".toList
  | none => true

/-- Collaborator oracles of the OpenAI tool executor.  Modelled from
the spec: `generateOpenAIImage` and `fetchUrlMetadata` are external
collaborators that may throw (`Except.error` carries the message),
`saveRemoteImage` never throws and may return null, and `syntaxErr`
names the engine-specific message of a `JSON.parse` throw. -/
structure OpenAIToolOracles where
  genImage : JsonValue → Except JStr SavedImage
  fetchMeta : JsonValue → Except JStr JsonValue
  saveRemote : JsonValue → Option SavedImage
  syntaxErr : JStr → JStr

/-- Key `call_id`. -/
def keyCallId : JStr := "call_id".toList

/-- Key `error`. -/
def keyError : JStr := "error".toList

/-- Key `prompt`. -/
def keyPrompt : JStr := "prompt".toList

/-- The refusal message for disabled image generation. -/
def disabledImageMsg : JStr :=
  "Image generation disabled for this request.".toList

/-- The missing-prompt error message. -/
def missingPromptMsg : JStr :=
  "generate_image requires a prompt".toList

/-- An object holding only an `error` field. -/
def errorPayload (msg : JStr) : JsonValue :=
  .jobj [(keyError, .jstr msg)]

/-- JavaScript `call.call_id || call.id`. -/
def callIdOf (call : JsonValue) : JsonValue :=
  if jsTruthyOpt (getField call keyCallId) then
    (getField call keyCallId).getD .jnull
  else (getField call ("id".toList)).getD .jnull

/-- A `function_call_output` item; the source serializes the payload
with `JSON.stringify`, which the embedding elides by keeping the
structured payload. -/
def toolOutput (callId payload : JsonValue) : JsonValue :=
  .jobj [(keyType, .jstr ("function_call_output".toList)),
         (keyCallId, callId),
         (keyOutput, payload)]

/-- The `arguments` decoding step:
`typeof call.arguments === 'string' ? JSON.parse(call.arguments) :
(call.arguments || \x7b\x7d)`. -/
def argsOf (oracles : OpenAIToolOracles) (call : JsonValue) :
    Except JStr JsonValue :=
  match getField call ("arguments".toList) with
  | some (.jstr s) =>
    (match jsonParse s with
     | some v => .ok v
     | none => .error (oracles.syntaxErr s))
  | some v => .ok (if jsTruthy v then v else .jobj [])
  | none => .ok (.jobj [])

/-- The effective prompt after the aspect-ratio mutation:
`if (args.aspect_ratio) args.prompt = prompt + ' (aspect ratio ...)'`
then `args.prompt || prompt`. -/
def effectivePrompt (args : JsonValue) : JsonValue :=
  let prompt := (getField args keyPrompt).getD .jnull
  match getField args ("aspect_ratio".toList) with
  | some ar =>
    if jsTruthy ar then
      .jstr (jsToString prompt ++ " (aspect ratio ".toList ++ jsToString ar ++ [')'])
    else prompt
  | none => prompt

/-- One URL of the `fetch_url_metadata` loop body: fetch metadata,
cache a truthy image, set the fallback. -/
def fetchOneMeta (oracles : OpenAIToolOracles) (url : JsonValue) :
    Except JStr JsonValue :=
  match oracles.fetchMeta url with
  | .error m => .error m
  | .ok info =>
    let infoObj := objOf info
    let infoObj :=
      if jsTruthyOpt (lookupLast infoObj keyImage) then
        match oracles.saveRemote ((lookupLast infoObj keyImage).getD .jnull) with
        | some cached =>
          if jsTruthy cached.url then
            setField infoObj ("image_cached".toList) cached.url
          else infoObj
        | none => infoObj
      else infoObj
    let fb :=
      if jsTruthyOpt (lookupLast infoObj ("image_cached".toList)) then
        (lookupLast infoObj ("image_cached".toList)).getD .jnull
      else
        .jstr (fallbackImageUrl
          (if jsTruthyOpt (lookupLast infoObj keyTitle) then
            lookupLast infoObj keyTitle
          else lookupLast infoObj keyUrl))
    .ok (.jobj (setField infoObj ("image_fallback".toList) fb))

/-- The URL list of a `fetch_url_metadata` call:
`args.urls` when a nonempty array, else a nonempty string `args.url`. -/
def metaUrlList (args : JsonValue) : List JsonValue :=
  match getField args ("urls".toList) with
  | some (.jarr us) =>
    if us.isEmpty then
      (match getField args keyUrl with
       | some (.jstr u) => if u.isEmpty then [] else [.jstr u]
       | _ => [])
    else us
  | _ =>
    (match getField args keyUrl with
     | some (.jstr u) => if u.isEmpty then [] else [.jstr u]
     | _ => [])

/-- Sequential metadata fetching over the first 6 URLs; a throw aborts
the whole call (caught by the per-call catch). -/
def fetchMetaList (oracles : OpenAIToolOracles) :
    List JsonValue → Except JStr (List JsonValue)
  | [] => .ok []
  | u :: rest =>
    match fetchOneMeta oracles u with
    | .error m => .error m
    | .ok info =>
      match fetchMetaList oracles rest with
      | .error m => .error m
      | .ok infos => .ok (info :: infos)

/-- One iteration of `executeOpenAIToolCalls`'s loop: every branch,
including the catch, pushes exactly one `function_call_output`. -/
def execOpenAICall (oracles : OpenAIToolOracles)
    (allowImageGeneration : Bool) (call : JsonValue) : JsonValue :=
  let callId := callIdOf call
  match argsOf oracles call with
  | .error msg => toolOutput callId (errorPayload msg)
  | .ok args =>
    if nameIs call ("generate_image".toList) then
      if !allowImageGeneration then
        toolOutput callId (errorPayload disabledImageMsg)
      else if !jsTruthyOpt (getField args keyPrompt) then
        toolOutput callId (errorPayload missingPromptMsg)
      else
        match oracles.genImage (effectivePrompt args) with
        | .ok image =>
          toolOutput callId
            (.jobj [(keyUrl, image.url), (("filename".toList), image.filename)])
        | .error msg => toolOutput callId (errorPayload msg)
    else if nameIs call ("fetch_url_metadata".toList) then
      match fetchMetaList oracles ((metaUrlList args).take 6) with
      | .ok metadata =>
        toolOutput callId (.jobj [(("results".toList), .jarr metadata)])
      | .error msg => toolOutput callId (errorPayload msg)
    else
      toolOutput callId
        (errorPayload ("Unknown tool: ".toList ++ jsToStringOpt (getField call keyName)))

/-- Model of `executeOpenAIToolCalls` (`llm.js` line 761): one output
per call, in order; per-call failures become error outputs. -/
def executeOpenAIToolCalls (oracles : OpenAIToolOracles)
    (allowImageGeneration : Bool) (toolCalls : List JsonValue) : List JsonValue :=
  toolCalls.map (execOpenAICall oracles allowImageGeneration)

/-- A Gemini `functionResponse` part for a call. -/
def funcResp (call : JsonValue) (payload : JsonValue) : JsonValue :=
  .jobj [(("functionResponse".toList),
    .jobj [(keyName, (getField call keyName).getD .jnull),
           (("response".toList), payload)])]

/-- One iteration of the Gemini per-call response builder
(`llm.js` lines 1174-1218): `generate_image` is refused when disallowed,
generation throws become error responses, unknown tools get an error
response. -/
def execGeminiCall (genImage : JsonValue → Except JStr SavedImage)
    (allowImageGeneration : Bool) (call : JsonValue) : JsonValue :=
  if nameIs call ("generate_image".toList) then
    if !allowImageGeneration then
      funcResp call (errorPayload disabledImageMsg)
    else if !jsTruthyOpt
        ((getField call ("args".toList)).bind (fun a => getField a keyPrompt)) then
      funcResp call (errorPayload missingPromptMsg)
    else
      match genImage ((getField call ("args".toList)).getD .jnull) with
      | .ok result =>
        funcResp call (.jobj [(keyUrl, result.url), (("filename".toList), result.filename)])
      | .error msg => funcResp call (errorPayload msg)
  else
    funcResp call
      (errorPayload ("Unknown tool: ".toList ++ jsToStringOpt (getField call keyName)))

/-- Source record pushed by `extractOpenAISources`:
`\x7btitle: t || '', url: u || '', image: null\x7d`. -/
def srcEntry (title url : Option JsonValue) : Obj :=
  [(keyTitle, if jsTruthyOpt title then title.getD .jnull else .jstr []),
   (keyUrl, if jsTruthyOpt url then url.getD .jnull else .jstr []),
   (keyImage, .jnull)]

/-- Array behind `item.action?.sources`, when present. -/
def webSearchSources (item : JsonValue) : List JsonValue :=
  match (getField item ("action".toList)).bind
      (fun a => getField a ("sources".toList)) with
  | some (.jarr l) => l
  | _ => []

/-- Array behind `item.content`, when present. -/
def contentParts (item : JsonValue) : List JsonValue :=
  match getField item keyContent with
  | some (.jarr l) => l
  | _ => []

/-- The `url_citation` annotations of one content part. -/
def annotationCitations (content : JsonValue) : List JsonValue :=
  match getField content ("annotations".toList) with
  | some (.jarr l) => l.filter (fun a => typeIs a ("url_citation".toList))
  | _ => []

/-- Model of `extractOpenAISources` (`llm.js` line 555): harvest
web-search call sources and url-citation annotations, then dedupe. -/
def extractOpenAISources (output : Option JsonValue) : List Obj :=
  match output with
  | some (.jarr items) =>
    dedupeSources (items.foldl
      (fun acc item =>
        let s1 :=
          if typeIs item ("web_search_call".toList) then
            (webSearchSources item).map
              (fun s => srcEntry (getField s keyTitle) (getField s keyUrl))
          else []
        let s2 :=
          if typeIs item strMessage && jsTruthyOpt (getField item keyContent) then
            (contentParts item).foldl
              (fun acc2 c =>
                acc2 ++ (annotationCitations c).map
                  (fun a => srcEntry (getField a keyTitle) (getField a keyUrl)))
              []
          else []
        acc ++ s1 ++ s2)
      [])
  | _ => []

/-! ### The two tool-call loops
(`llm.js` lines 912-966 and 1146-1238).  The provider HTTP call is
abstracted as a sequence of responses indexed by call number (call 0 is
the initial invocation); the running input is threaded faithfully even
though the indexed oracle does not read it. -/

/-- The `for (let attempt = 0; attempt < 4; attempt++)` loop of
`callOpenAIWithTools`, indexed by remaining iterations; returns the
final response, the accumulated sources, and the number of
execute-and-reinvoke round-trips performed. -/
def openAIToolLoop (responses : Nat → JsonValue) (oracles : OpenAIToolOracles)
    (allowImg : Bool) :
    Nat → Nat → List JsonValue → List Obj → JsonValue →
    JsonValue × List Obj × Nat
  | 0, _, _, sources, data => (data, sources, 0)
  | fuel + 1, idx, input, sources, data =>
    let toolCalls := extractOpenAIFunctionCalls (getField data keyOutput)
    if toolCalls.isEmpty then (data, sources, 0)
    else
      let toolOutputs := executeOpenAIToolCalls oracles allowImg toolCalls
      let input' := input ++ outputItems data ++ toolOutputs
      let data' := responses idx
      let sources' :=
        dedupeSources (sources ++ extractOpenAISources (getField data' keyOutput))
      let r := openAIToolLoop responses oracles allowImg fuel (idx + 1) input' sources' data'
      (r.1, r.2.1, r.2.2 + 1)

/-- Model of `callOpenAIWithTools`: initial invocation, the capped tool
loop, then text extraction and parsing.  `input0` stands for the built
input plus optional context message; `context` is the context object. -/
def callOpenAIWithToolsModel (responses : Nat → JsonValue)
    (oracles : OpenAIToolOracles) (imagePolicy : Option ImagePolicy)
    (context : Option JsonValue) (input0 : List JsonValue) :
    JsonValue × List JsonValue × List Obj × Nat :=
  let data0 := responses 0
  let sources0 := extractOpenAISources (getField data0 keyOutput)
  let allowImg := allowImageGenerationOf imagePolicy
  let r := openAIToolLoop responses oracles allowImg 4 1 input0 sources0 data0
  let content := getOpenAIOutputText r.1
  let finalSources :=
    match context.bind (fun c => getField c ("sources".toList)) with
    | some v =>
      if jsTruthy v then
        dedupeSources (r.2.1 ++ (match v with | .jarr l => l.map objOf | _ => []))
      else r.2.1
    | none => r.2.1
  (content, parseResponse content, finalSources, r.2.2)

/-- First candidate's `content` of a Gemini response (appended back
into the running contents). -/
def geminiCandidateContent (data : JsonValue) : JsonValue :=
  ((do
    let c ← getField data ("candidates".toList)
    let c0 ← (match c with | .jarr l => l.head? | _ => none)
    getField c0 keyContent) : Option JsonValue).getD .jnull

/-- The `for (let attempt = 0; attempt < 4; attempt++)` loop of
`callGeminiWithTools`, indexed by remaining iterations; returns the
final response and the number of round-trips performed. -/
def geminiToolLoop (responses : Nat → JsonValue)
    (genImage : JsonValue → Except JStr SavedImage) (allowImg : Bool) :
    Nat → Nat → List JsonValue → JsonValue → JsonValue × Nat
  | 0, _, _, data => (data, 0)
  | fuel + 1, idx, contents, data =>
    let functionCalls := getGeminiFunctionCalls data
    if functionCalls.isEmpty then (data, 0)
    else
      let functionResponses := functionCalls.map (execGeminiCall genImage allowImg)
      let contents' := contents ++
        [geminiCandidateContent data,
         .jobj [(("role".toList), .jstr ("user".toList)),
                (("parts".toList), .jarr functionResponses)]]
      let data' := responses idx
      let r := geminiToolLoop responses genImage allowImg fuel (idx + 1) contents' data'
      (r.1, r.2 + 1)

/-- Model of `callGeminiWithTools`: initial invocation, the capped tool
loop, then text extraction and parsing.  `contents0` stands for the
built contents including the appended context message. -/
def callGeminiWithToolsModel (responses : Nat → JsonValue)
    (genImage : JsonValue → Except JStr SavedImage)
    (imagePolicy : Option ImagePolicy) (context : JsonValue)
    (contents0 : List JsonValue) :
    JsonValue × List JsonValue × JsonValue × Nat :=
  let data0 := responses 0
  let allowImg := allowImageGenerationOf imagePolicy
  let r := geminiToolLoop responses genImage allowImg 4 1 contents0 data0
  let content := getGeminiText r.1
  let finalSources :=
    match getField context ("sources".toList) with
    | some v => if jsTruthy v then v else .jarr []
    | none => .jarr []
  (content, parseResponse content, finalSources, r.2)

/-- The OpenAI tool loop never performs more round-trips than its
remaining-iteration budget. -/
theorem openAIToolLoop_rounds_le (responses : Nat → JsonValue)
    (oracles : OpenAIToolOracles) (allowImg : Bool) :
    ∀ fuel idx input sources data,
      (openAIToolLoop responses oracles allowImg fuel idx input sources data).2.2 ≤ fuel := by
  intro fuel
  induction fuel with
  | zero => intro idx input sources data; simp [openAIToolLoop]
  | succ n ih =>
    intro idx input sources data
    by_cases h : (extractOpenAIFunctionCalls (getField data keyOutput)).isEmpty
    · simp [openAIToolLoop, h]
    · simp only [openAIToolLoop, h, Bool.false_eq_true, if_false]
      exact Nat.succ_le_succ (ih _ _ _ _)

/-- The Gemini tool loop never performs more round-trips than its
remaining-iteration budget. -/
theorem geminiToolLoop_rounds_le (responses : Nat → JsonValue)
    (genImage : JsonValue → Except JStr SavedImage) (allowImg : Bool) :
    ∀ fuel idx contents data,
      (geminiToolLoop responses genImage allowImg fuel idx contents data).2 ≤ fuel := by
  intro fuel
  induction fuel with
  | zero => intro idx contents data; simp [geminiToolLoop]
  | succ n ih =>
    intro idx contents data
    by_cases h : (getGeminiFunctionCalls data).isEmpty
    · simp [geminiToolLoop, h]
    · simp only [geminiToolLoop, h, Bool.false_eq_true, if_false]
      exact Nat.succ_le_succ (ih _ _ _)

/-- Claim C2: when every provider response carries at least one
tool/function call, both the OpenAI and the Gemini tool loops perform
exactly 4 execute-and-reinvoke round-trips after the initial call and
return the text of the last response received (response number 4); and
unconditionally each loop body executes at most 4 times. -/
theorem toolCallLoop_four_roundtrips
    (responsesO responsesG : Nat → JsonValue) (oracles : OpenAIToolOracles)
    (genImage : JsonValue → Except JStr SavedImage)
    (policyO policyG : Option ImagePolicy) (context : Option JsonValue)
    (ctxG : JsonValue) (input0 contents0 : List JsonValue) :
    ((∀ i, extractOpenAIFunctionCalls (getField (responsesO i) keyOutput) ≠ []) →
      (callOpenAIWithToolsModel responsesO oracles policyO context input0).1 =
          getOpenAIOutputText (responsesO 4)
        ∧ (callOpenAIWithToolsModel responsesO oracles policyO context input0).2.2.2 = 4)
    ∧ ((∀ i, getGeminiFunctionCalls (responsesG i) ≠ []) →
      (callGeminiWithToolsModel responsesG genImage policyG ctxG contents0).1 =
          getGeminiText (responsesG 4)
        ∧ (callGeminiWithToolsModel responsesG genImage policyG ctxG contents0).2.2.2 = 4)
    ∧ (callOpenAIWithToolsModel responsesO oracles policyO context input0).2.2.2 ≤ 4
    ∧ (callGeminiWithToolsModel responsesG genImage policyG ctxG contents0).2.2.2 ≤ 4 := by
  refine ⟨?_, ?_, ?_, ?_⟩
  · intro hne
    have hcalls : ∀ i,
        (extractOpenAIFunctionCalls (getField (responsesO i) keyOutput)).isEmpty = false := by
      intro i
      rcases h : extractOpenAIFunctionCalls (getField (responsesO i) keyOutput) with _ | ⟨a, l⟩
      · exact absurd h (hne i)
      · rfl
    constructor <;>
      simp [callOpenAIWithToolsModel, openAIToolLoop,
        hcalls 0, hcalls 1, hcalls 2, hcalls 3]
  · intro hne
    have hcalls : ∀ i, (getGeminiFunctionCalls (responsesG i)).isEmpty = false := by
      intro i
      rcases h : getGeminiFunctionCalls (responsesG i) with _ | ⟨a, l⟩
      · exact absurd h (hne i)
      · rfl
    constructor <;>
      simp [callGeminiWithToolsModel, geminiToolLoop,
        hcalls 0, hcalls 1, hcalls 2, hcalls 3]
  · exact openAIToolLoop_rounds_le _ _ _ 4 _ _ _ _
  · exact geminiToolLoop_rounds_le _ _ _ 4 _ _ _

/-- An OpenAI response whose output is a single function call. -/
def c2OaData : JsonValue :=
  .jobj [(keyOutput, .jarr [.jobj [(keyType, .jstr ("function_call".toList)),
                                   (keyName, .jstr ("generate_image".toList))]])]

/-- A Gemini response whose first candidate carries one function call. -/
def c2GmData : JsonValue :=
  .jobj [(("candidates".toList), .jarr [.jobj [(keyContent,
    .jobj [(("parts".toList), .jarr [.jobj [(("functionCall".toList),
      .jobj [(keyName, .jstr ("generate_image".toList))])]])])]])]

/-- Trivial collaborator oracles for witnesses. -/
def c2Oracles : OpenAIToolOracles where
  genImage := fun _ => .error ("unavailable".toList)
  fetchMeta := fun _ => .error ("unavailable".toList)
  saveRemote := fun _ => none
  syntaxErr := fun _ => "parse error".toList

/-- Witness for C2: a model issuing tool calls indefinitely drives both
loops to exactly 4 round-trips. -/
theorem toolCallLoop_four_roundtrips_witness :
    (callOpenAIWithToolsModel (fun _ => c2OaData) c2Oracles none none []).2.2.2 = 4
    ∧ (callGeminiWithToolsModel (fun _ => c2GmData)
        (fun _ => .error ("unavailable".toList)) none .jnull []).2.2.2 = 4 :=
  ⟨((toolCallLoop_four_roundtrips (fun _ => c2OaData) (fun _ => c2GmData)
      c2Oracles (fun _ => .error ("unavailable".toList)) none none none .jnull [] []).1
      (fun _ => List.cons_ne_nil _ _)).2,
   ((toolCallLoop_four_roundtrips (fun _ => c2OaData) (fun _ => c2GmData)
      c2Oracles (fun _ => .error ("unavailable".toList)) none none none .jnull [] []).2.1
      (fun _ => List.cons_ne_nil _ _)).2⟩

/-- The `output` payload of a tool output is retrievable. -/
theorem getField_toolOutput (cid p : JsonValue) :
    getField (toolOutput cid p) keyOutput = some p := rfl

/-- Claim C7: with an image policy of mode `none`, every
`generate_image` tool call in a batch is answered by a structured
result whose payload is an error object, in both tool loops; no
exception escapes (the executors are total, answering every call of
the batch in order), so the remaining calls keep executing. -/
theorem imagePolicyNone_refuses_generation
    (policy : ImagePolicy) (hmode : policy.mode = "none".toList)
    (oracles : OpenAIToolOracles)
    (genImage : JsonValue → Except JStr SavedImage)
    (calls : List JsonValue) :
    (executeOpenAIToolCalls oracles (allowImageGenerationOf (some policy)) calls).length
        = calls.length
    ∧ (∀ i (hi : i < calls.length),
        (executeOpenAIToolCalls oracles (allowImageGenerationOf (some policy)) calls).get
            ⟨i, by simpa [executeOpenAIToolCalls] using hi⟩ =
          execOpenAICall oracles (allowImageGenerationOf (some policy)) (calls.get ⟨i, hi⟩))
    ∧ (∀ call, nameIs call ("generate_image".toList) = true →
        ∃ msg, getField
          (execOpenAICall oracles (allowImageGenerationOf (some policy)) call)
          keyOutput = some (errorPayload msg))
    ∧ (calls.map (execGeminiCall genImage (allowImageGenerationOf (some policy)))).length
        = calls.length
    ∧ (∀ i (hi : i < calls.length),
        (calls.map (execGeminiCall genImage (allowImageGenerationOf (some policy)))).get
            ⟨i, by simpa using hi⟩ =
          execGeminiCall genImage (allowImageGenerationOf (some policy)) (calls.get ⟨i, hi⟩))
    ∧ (∀ call, nameIs call ("generate_image".toList) = true →
        execGeminiCall genImage (allowImageGenerationOf (some policy)) call =
          funcResp call (errorPayload disabledImageMsg)) := by
  have hallow : allowImageGenerationOf (some policy) = false := by
    simp [allowImageGenerationOf, hmode]
  refine ⟨by simp [executeOpenAIToolCalls], ?_, ?_, by simp, ?_, ?_⟩
  · intro i hi
    simp [executeOpenAIToolCalls]
  · intro call h
    rw [hallow]
    cases hargs : argsOf oracles call with
    | error m =>
      exact ⟨m, by simp [execOpenAICall, hargs, getField_toolOutput]⟩
    | ok args =>
      refine ⟨disabledImageMsg, ?_⟩
      simp at h
      simp [execOpenAICall, hargs, h, getField_toolOutput]
  · intro i hi
    simp
  · intro call h
    rw [hallow]
    simp at h
    simp [execGeminiCall, h]

/-- A concrete `generate_image` tool call. -/
def c7Call : JsonValue :=
  .jobj [(keyName, .jstr ("generate_image".toList)),
         (keyCallId, .jstr ("call-1".toList))]

/-- Witness for C7: under mode `none`, the concrete `generate_image`
call gets an error payload in the OpenAI executor and the disabled
refusal in the Gemini executor, and batch lengths are preserved. -/
theorem imagePolicyNone_refuses_generation_witness :
    (∃ msg, getField
        (execOpenAICall c2Oracles
          (allowImageGenerationOf (some ⟨"none".toList, 0⟩)) c7Call)
        keyOutput = some (errorPayload msg))
    ∧ execGeminiCall (fun _ => .error ("unavailable".toList))
        (allowImageGenerationOf (some ⟨"none".toList, 0⟩)) c7Call =
        funcResp c7Call (errorPayload disabledImageMsg)
    ∧ (executeOpenAIToolCalls c2Oracles
        (allowImageGenerationOf (some ⟨"none".toList, 0⟩)) [c7Call]).length = 1 :=
  ⟨(imagePolicyNone_refuses_generation ⟨"none".toList, 0⟩ rfl c2Oracles
      (fun _ => .error ("unavailable".toList)) [c7Call]).2.2.1 c7Call rfl,
   (imagePolicyNone_refuses_generation ⟨"none".toList, 0⟩ rfl c2Oracles
      (fun _ => .error ("unavailable".toList)) [c7Call]).2.2.2.2.2 c7Call rfl,
   (imagePolicyNone_refuses_generation ⟨"none".toList, 0⟩ rfl c2Oracles
      (fun _ => .error ("unavailable".toList)) [c7Call]).1⟩

/-! ### Image policy classifiers (`llm.js` lines 388-409) -/

/-- Model of `isNewsRequest`: case-insensitive alternation over the
news literals. -/
def isNewsRequest (text : JStr) : Bool :=
  if text.isEmpty then false
  else hasAnyCI text
    ["뉴스".toList, "news".toList, "헤드라인".toList,
     "headline".toList, "기사".toList, "breaking".toList]

/-- Anchored match of `a` then `\s*` then `b` at the head of `s`. -/
def seqWithWsAt (a b s : JStr) : Bool :=
  a.isPrefixOf s && b.isPrefixOf ((s.drop a.length).dropWhile jsWs)

/-- Occurrence of `a\s*b` anywhere in the string. -/
def hasSeqWithWs (a b : JStr) : JStr → Bool
  | [] => seqWithWsAt a b []
  | c :: rest => seqWithWsAt a b (c :: rest) || hasSeqWithWs a b rest

/-- Model of `hasExplicitImageRequest`: each alternative of the regex
is a pair of literals separated by `\s*`, tested case-insensitively. -/
def hasExplicitImageRequest (text : JStr) : Bool :=
  if text.isEmpty then false
  else
    let low := lowerStr text
    hasSeqWithWs ("이미지".toList) ("생성".toList) low ||
    hasSeqWithWs ("그림".toList) ("생성".toList) low ||
    hasSeqWithWs ("이미지".toList) ("만들".toList) low ||
    hasSeqWithWs ("이미지".toList) ("넣".toList) low ||
    hasSeqWithWs ("image".toList) ("generation".toList) low ||
    hasSeqWithWs ("generate".toList) ("image".toList) low ||
    hasSeqWithWs ("create".toList) ("image".toList) low ||
    hasSeqWithWs ("insert".toList) ("image".toList) low

/-- Model of `wantsVisualAid`: case-insensitive alternation over the
visualization literals. -/
def wantsVisualAid (text : JStr) : Bool :=
  if text.isEmpty then false
  else hasAnyCI text
    ["시각화".toList, "visualize".toList, "visualisation".toList,
     "diagram".toList, "flowchart".toList, "인포그래픽".toList,
     "infographic".toList, "도식".toList, "타임라인".toList,
     "timeline".toList, "그래프".toList, "chart".toList]

/-- Model of `getImagePolicy` (`llm.js` line 403): news forces `none`
before the explicit and visualization heuristics are consulted. -/
def getImagePolicy (text : JStr) : ImagePolicy :=
  if text.isEmpty then ⟨"none".toList, 0⟩
  else if isNewsRequest text then ⟨"none".toList, 0⟩
  else if hasExplicitImageRequest text then ⟨"explicit".toList, 3⟩
  else if wantsVisualAid text then ⟨"assist".toList, 2⟩
  else ⟨"none".toList, 0⟩

/-- Claim C8: any text matching the news/headline pattern is classified
`\x7bmode: none, max: 0\x7d`, even when the explicit-image or
visualization heuristics also match (they are never consulted). -/
theorem newsForcesImagePolicyNone (text : JStr)
    (h : isNewsRequest text = true) :
    getImagePolicy text = ⟨"none".toList, 0⟩ := by
  unfold getImagePolicy
  by_cases he : text.isEmpty
  · simp [he]
  · simp [he, h]

/-- News text that also triggers both other heuristics. -/
def c8Text : JStr :=
  "breaking news about tariffs: generate image to visualize the timeline".toList

/-- Witness for C8: the concrete text matches the news pattern, the
explicit-image pattern and the visualization pattern, yet is classified
`none` with `max 0`. -/
theorem newsForcesImagePolicyNone_witness :
    isNewsRequest c8Text = true
    ∧ hasExplicitImageRequest c8Text = true
    ∧ wantsVisualAid c8Text = true
    ∧ getImagePolicy c8Text = ⟨"none".toList, 0⟩ :=
  ⟨rfl, rfl, rfl, newsForcesImagePolicyNone c8Text rfl⟩

/-! ### pickBestSourceForItem (`llm.js` lines 493-552) -/

/-- Characters collapsed to a space by the normalization regex: the
four ASCII ranges 00..2f, 3a..40, 5b..60 and 7b..7f. -/
def isPunctRange (c : Char) : Bool :=
  c.toNat ≤ 0x2f ||
  (0x3a ≤ c.toNat && c.toNat ≤ 0x40) ||
  (0x5b ≤ c.toNat && c.toNat ≤ 0x60) ||
  (0x7b ≤ c.toNat && c.toNat ≤ 0x7f)

/-- Global replacement of runs of `bad` characters with a single `rep`
character; `prevRun` records whether the last output closed a run. -/
def replaceRuns (bad : Char → Bool) (rep : Char) : Bool → JStr → JStr
  | _, [] => []
  | prevRun, c :: rest =>
    if bad c then
      if prevRun then replaceRuns bad rep true rest
      else rep :: replaceRuns bad rep true rest
    else c :: replaceRuns bad rep false rest

/-- Model of `normalizeForMatch` (`llm.js` line 493): lowercase,
collapse punctuation runs to spaces, collapse whitespace, trim; `none`
models the absent-argument default `''`. -/
def normalizeForMatch (text : Option JsonValue) : JStr :=
  let s := match text with
    | none => []
    | some v => jsToString v
  jsTrim (replaceRuns jsWs ' ' false (replaceRuns isPunctRange ' ' false (lowerStr s)))

/-- Split on single spaces, dropping empty pieces
(`.split(' ').filter(Boolean)`). -/
def splitBySpaceAux : JStr → JStr → List JStr
  | [], acc => [acc.reverse]
  | ' ' :: rest, acc => acc.reverse :: splitBySpaceAux rest []
  | c :: rest, acc => splitBySpaceAux rest (c :: acc)

/-- Nonempty space-separated tokens of a string. -/
def tokensOf (s : JStr) : List JStr :=
  (splitBySpaceAux s []).filter (fun t => !t.isEmpty)

/-- Model of `scoreTitleMatch` (`llm.js` line 501): exact match scores
3, containment 2, otherwise the shared-token count over the larger
token-set size (0 when no token is shared).  JavaScript numbers are
modelled as rationals: every score is an exact small rational. -/
def scoreTitleMatch (a b : Option JsonValue) : ℚ :=
  let left := normalizeForMatch a
  let right := normalizeForMatch b
  if left.isEmpty || right.isEmpty then 0
  else if left = right then 3
  else if hasSub left right || hasSub right left then 2
  else
    let leftTokens := (tokensOf left).dedup
    let rightTokens := (tokensOf right).dedup
    if leftTokens.isEmpty || rightTokens.isEmpty then 0
    else
      let common := leftTokens.countP (fun t => rightTokens.contains t)
      if common = 0 then 0
      else (common : ℚ) / (max leftTokens.length rightTokens.length : ℚ)

/-- Strict `===` between a source's `url` and the item's `source_url`,
restricted to string values (the Source data model); the direct-match
branch only runs under a truthy `source_url`. -/
def strictEqVals : Option JsonValue → Option JsonValue → Bool
  | some (.jstr a), some (.jstr b) => a = b
  | _, _ => false

/-- Membership of a value in the string set `usedUrls`
(`usedUrls.has(source.url)`); a `Set` of strings never contains a
non-string value. -/
def usedHas (usedUrls : List JStr) (u : JsonValue) : Bool :=
  match u with
  | .jstr s => usedUrls.contains s
  | _ => false

/-- Key `source_url`. -/
def keySourceUrl : JStr := "source_url".toList

/-- Key `source_title`. -/
def keySourceTitle : JStr := "source_title".toList

/-- One step of the best-score fold over the sources. -/
def pickScoreStep (usedUrls : List JStr) (preferredTitle itemTitle : Option JsonValue)
    (best : Option Obj × ℚ) (source : Obj) : Option Obj × ℚ :=
  if !jsTruthyOpt (lookupLast source keyUrl) then best
  else if usedHas usedUrls ((lookupLast source keyUrl).getD .jnull) then best
  else
    let score := max
      (scoreTitleMatch preferredTitle (lookupLast source keyTitle))
      (scoreTitleMatch itemTitle (lookupLast source keyTitle))
    if best.2 < score then (some source, score) else best

/-- Model of `pickBestSourceForItem` (`llm.js` line 521): direct URL
match first (ignoring `usedUrls`), then the best-scoring unused source,
then the first unused source, then the first source. -/
def pickBestSourceForItem (item : JsonValue) (sources : List Obj)
    (usedUrls : List JStr) : Option Obj :=
  if sources.isEmpty then none
  else
    let direct :=
      if jsTruthyOpt (getField item keySourceUrl) then
        sources.find? (fun source =>
          strictEqVals (lookupLast source keyUrl) (getField item keySourceUrl))
      else none
    match direct with
    | some d => some d
    | none =>
      let preferredTitle :=
        if jsTruthyOpt (getField item keySourceTitle) then getField item keySourceTitle
        else if jsTruthyOpt (getField item keyTitle) then getField item keyTitle
        else some (.jstr [])
      let best := sources.foldl
        (pickScoreStep usedUrls preferredTitle (getField item keyTitle)) (none, 0)
      match best.1 with
      | some b => some b
      | none =>
        match sources.find? (fun s =>
            jsTruthyOpt (lookupLast s keyUrl) &&
            !usedHas usedUrls ((lookupLast s keyUrl).getD .jnull)) with
        | some f => some f
        | none => sources.head?

/-- Goodness of a fold state: empty, or holding a source with a truthy
unused url. -/
def pickStateOk (usedUrls : List JStr) (best : Option Obj × ℚ) : Prop :=
  best.1 = none ∨ ∃ s, best.1 = some s ∧
    jsTruthyOpt (lookupLast s keyUrl) = true ∧
    usedHas usedUrls ((lookupLast s keyUrl).getD .jnull) = false

/-- The scoring step only ever installs a source with a truthy unused
url. -/
theorem pickScoreStep_preserves (usedUrls : List JStr)
    (pt it : Option JsonValue) (best : Option Obj × ℚ) (source : Obj)
    (h : pickStateOk usedUrls best) :
    pickStateOk usedUrls (pickScoreStep usedUrls pt it best source) := by
  unfold pickScoreStep
  by_cases h1 : jsTruthyOpt (lookupLast source keyUrl) = true
  · by_cases h2 : usedHas usedUrls ((lookupLast source keyUrl).getD .jnull) = true
    · simp only [h1, h2, Bool.not_true, Bool.false_eq_true, if_false, if_true]
      exact h
    · have h2f : usedHas usedUrls ((lookupLast source keyUrl).getD .jnull) = false :=
        Bool.eq_false_iff.mpr h2
      by_cases h3 : best.2 < max
          (scoreTitleMatch pt (lookupLast source keyTitle))
          (scoreTitleMatch it (lookupLast source keyTitle))
      · simp only [h1, h2f, h3, Bool.not_true, Bool.false_eq_true, if_false, if_true]
        exact Or.inr ⟨source, rfl, h1, h2f⟩
      · simp only [h1, h2f, h3, Bool.not_true, Bool.false_eq_true, if_false, if_true]
        exact h
  · have h1f : jsTruthyOpt (lookupLast source keyUrl) = false :=
      Bool.eq_false_iff.mpr h1
    simp only [h1f, Bool.not_false, if_true]
    exact h

/-- The scoring fold keeps the goodness invariant. -/
theorem pickScore_foldl_ok (usedUrls : List JStr) (pt it : Option JsonValue) :
    ∀ (sources : List Obj) (init : Option Obj × ℚ),
      pickStateOk usedUrls init →
      pickStateOk usedUrls (sources.foldl (pickScoreStep usedUrls pt it) init)
  | [], _, h => h
  | s :: rest, init, h =>
    pickScore_foldl_ok usedUrls pt it rest _
      (pickScoreStep_preserves usedUrls pt it init s h)

/-- A plan item carrying a `source_url` already assigned to another
item. -/
def c4Item : JsonValue := .jobj [(keySourceUrl, .jstr ['a'])]

/-- The already-used source. -/
def c4SrcA : Obj := [(keyUrl, .jstr ['a'])]

/-- An unused alternative source. -/
def c4SrcB : Obj := [(keyUrl, .jstr ['b'])]

/-- Counterexample to claim C4 as stated: with `usedUrls = \x7b"a"\x7d`
and an unused source `"b"` available, the direct-URL branch still
returns the source whose url `"a"` is already used. -/
theorem pickBestSourceForItem_counterexample :
    pickBestSourceForItem c4Item [c4SrcA, c4SrcB] [['a']] = some c4SrcA
    ∧ usedHas [['a']] ((lookupLast c4SrcA keyUrl).getD .jnull) = true
    ∧ jsTruthyOpt (lookupLast c4SrcB keyUrl) = true
    ∧ usedHas [['a']] ((lookupLast c4SrcB keyUrl).getD .jnull) = false :=
  ⟨rfl, rfl, rfl, rfl⟩

/-- Claim C4 amended: when the direct `source_url` match does not fire
(the item has no truthy `source_url`, or no source matches it) and some
source has a truthy url outside `usedUrls`, the returned source's url
is outside `usedUrls`. -/
theorem pickBestSourceForItem_unused (item : JsonValue) (sources : List Obj)
    (usedUrls : List JStr)
    (hdirect : jsTruthyOpt (getField item keySourceUrl) = false ∨
      sources.find? (fun source =>
        strictEqVals (lookupLast source keyUrl) (getField item keySourceUrl)) = none)
    (hexists : ∃ s ∈ sources, jsTruthyOpt (lookupLast s keyUrl) = true ∧
      usedHas usedUrls ((lookupLast s keyUrl).getD .jnull) = false) :
    ∃ r, pickBestSourceForItem item sources usedUrls = some r ∧
      jsTruthyOpt (lookupLast r keyUrl) = true ∧
      usedHas usedUrls ((lookupLast r keyUrl).getD .jnull) = false := by
  obtain ⟨s0, hs0, hu0, hn0⟩ := hexists
  have hne : sources.isEmpty = false := by
    cases sources with
    | nil => cases hs0
    | cons a l => rfl
  have hd : (if jsTruthyOpt (getField item keySourceUrl) then
      sources.find? (fun source =>
        strictEqVals (lookupLast source keyUrl) (getField item keySourceUrl))
      else none) = none := by
    rcases hdirect with h | h
    · simp [h]
    · by_cases ht : jsTruthyOpt (getField item keySourceUrl) = true
      · simp [ht, h]
      · simp [Bool.eq_false_iff.mpr ht]
  have hfold := pickScore_foldl_ok usedUrls
    (if jsTruthyOpt (getField item keySourceTitle) then getField item keySourceTitle
     else if jsTruthyOpt (getField item keyTitle) then getField item keyTitle
     else some (.jstr []))
    (getField item keyTitle) sources (none, 0) (Or.inl rfl)
  unfold pickBestSourceForItem
  rw [hne]
  simp only [Bool.false_eq_true, if_false, hd]
  rcases hfold with hb | ⟨b, hb, hbu, hbn⟩
  · rw [hb]
    have hfind : (sources.find? (fun s =>
        jsTruthyOpt (lookupLast s keyUrl) &&
        !usedHas usedUrls ((lookupLast s keyUrl).getD .jnull))).isSome := by
      rw [List.find?_isSome]
      exact ⟨s0, hs0, by rw [hu0, hn0]; rfl⟩
    obtain ⟨f, hf⟩ := Option.isSome_iff_exists.mp hfind
    have hpf := List.find?_some hf
    rw [Bool.and_eq_true, Bool.not_eq_true'] at hpf
    exact ⟨f, by rw [hf], hpf.1, hpf.2⟩
  · rw [hb]
    exact ⟨b, rfl, hbu, hbn⟩

/-- Witness for the amended C4: an item with no `source_url` and one
unused source available yields a source with an unused url. -/
theorem pickBestSourceForItem_unused_witness :
    ∃ r, pickBestSourceForItem (.jobj []) [c4SrcA, c4SrcB] [['a']] = some r ∧
      jsTruthyOpt (lookupLast r keyUrl) = true ∧
      usedHas [['a']] ((lookupLast r keyUrl).getD .jnull) = false :=
  pickBestSourceForItem_unused (.jobj []) [c4SrcA, c4SrcB] [['a']]
    (Or.inl rfl) ⟨c4SrcB, by simp, rfl, rfl⟩

/-! ### Algebra of object lookups and spread merges, for the
`dedupeSources` characterization (claim C5). -/

/-- First-of-two lookup combinator. -/
def orElseO (x y : Option JsonValue) : Option JsonValue :=
  match x with
  | some v => some v
  | none => y

/-- Computation law of `orElseO`. -/
theorem orElseO_some (v : JsonValue) (y : Option JsonValue) :
    orElseO (some v) y = some v := rfl

/-- Computation law of `orElseO`. -/
theorem orElseO_none (y : Option JsonValue) : orElseO none y = y := rfl

/-- The lookup fold from any initial accumulator. -/
theorem lookupLast_foldl (l : Obj) (k : JStr) (i : Option JsonValue) :
    l.foldl (fun acc kv => if kv.1 = k then some kv.2 else acc) i =
      orElseO (lookupLast l k) i := by
  induction l generalizing i with
  | nil => simp [lookupLast, orElseO]
  | cons kv rest ih =>
    rw [List.foldl_cons, ih]
    have hr : lookupLast (kv :: rest) k =
        orElseO (lookupLast rest k) (if kv.1 = k then some kv.2 else none) := by
      show rest.foldl _ (if kv.1 = k then some kv.2 else none) = _
      rw [ih]
    rw [hr]
    cases lookupLast rest k with
    | some v => rfl
    | none =>
      by_cases hk : kv.1 = k
      · simp [hk, orElseO]
      · simp [hk, orElseO]

/-- Cons law of `lookupLast`. -/
theorem lookupLast_cons (kv : JStr × JsonValue) (rest : Obj) (k : JStr) :
    lookupLast (kv :: rest) k =
      orElseO (lookupLast rest k) (if kv.1 = k then some kv.2 else none) := by
  show rest.foldl _ (if kv.1 = k then some kv.2 else none) = _
  rw [lookupLast_foldl]

/-- Append law of `lookupLast`: the later list wins. -/
theorem lookupLast_append (l1 l2 : Obj) (k : JStr) :
    lookupLast (l1 ++ l2) k = orElseO (lookupLast l2 k) (lookupLast l1 k) := by
  show (l1 ++ l2).foldl _ none = _
  rw [List.foldl_append]
  exact lookupLast_foldl l2 k _

/-- Key presence agrees with lookup success. -/
theorem hasKey_iff_lookupLast (l : Obj) (k : JStr) :
    hasKey l k = true ↔ (lookupLast l k).isSome = true := by
  induction l with
  | nil => simp [hasKey, lookupLast]
  | cons kv rest ih =>
    rw [lookupLast_cons]
    by_cases hk : kv.1 = k
    · constructor
      · intro _
        cases hr : lookupLast rest k with
        | some v => rw [orElseO_some]; rfl
        | none => rw [orElseO_none, if_pos hk]; rfl
      · intro _
        simp only [hasKey, List.any_cons, Bool.or_eq_true]
        exact Or.inl (by simp [hk])
    · have hh : hasKey (kv :: rest) k = hasKey rest k := by
        simp [hasKey, hk]
      rw [hh]
      cases hr : lookupLast rest k with
      | some v =>
        rw [orElseO_some]
        simp only [Option.isSome_some]
        constructor
        · intro _; trivial
        · intro _; exact ih.mpr (by rw [hr]; rfl)
      | none =>
        rw [orElseO_none, if_neg hk]
        constructor
        · intro h1; exact absurd (ih.mp h1) (by rw [hr]; simp)
        · intro h2; simp at h2

/-- A list whose bindings all avoid key `k` looks up to nothing. -/
theorem lookupLast_eq_none (l : Obj) (k : JStr)
    (h : ∀ kv ∈ l, kv.1 ≠ k) : lookupLast l k = none := by
  induction l with
  | nil => rfl
  | cons kv rest ih =>
    rw [lookupLast_cons, ih (fun x hx => h x (List.mem_cons_of_mem _ hx)),
      orElseO_none, if_neg (h kv (List.mem_cons_self _ _))]

/-- Filtering with a predicate that keeps every `k`-binding does not
change the `k` lookup. -/
theorem lookupLast_filter (l : Obj) (k : JStr) (p : JStr × JsonValue → Bool)
    (h : ∀ kv ∈ l, kv.1 = k → p kv = true) :
    lookupLast (l.filter p) k = lookupLast l k := by
  induction l with
  | nil => rfl
  | cons kv rest ih =>
    have ih' := ih (fun x hx hxk => h x (List.mem_cons_of_mem _ hx) hxk)
    by_cases hk : kv.1 = k
    · rw [List.filter_cons_of_pos (h kv (List.mem_cons_self _ _) hk),
        lookupLast_cons, lookupLast_cons, ih']
    · cases hp : p kv
      · rw [List.filter_cons_of_neg (by rw [hp]; exact Bool.false_ne_true),
          ih', lookupLast_cons, if_neg hk]
        cases lookupLast rest k <;> rfl
      · rw [List.filter_cons_of_pos hp, lookupLast_cons, lookupLast_cons, ih']

/-- The spread updater of `spreadObj`'s left part. -/
def spreadUpd (b : Obj) (kv : JStr × JsonValue) : JStr × JsonValue :=
  match lookupLast b kv.1 with
  | some v => (kv.1, v)
  | none => kv

/-- The updater preserves keys. -/
theorem spreadUpd_fst (b : Obj) (kv : JStr × JsonValue) :
    (spreadUpd b kv).1 = kv.1 := by
  unfold spreadUpd
  cases lookupLast b kv.1 <;> rfl

/-- The left part of a spread is the map of the updater. -/
theorem spreadObj_eq (a b : Obj) :
    spreadObj a b =
      a.map (spreadUpd b) ++ b.filter (fun kv => !hasKey a kv.1) := by
  unfold spreadObj spreadUpd
  rfl

/-- Lookup in the updated left part. -/
theorem lookupLast_map_spreadUpd (a b : Obj) (k : JStr) :
    lookupLast (a.map (spreadUpd b)) k =
      match lookupLast a k with
      | none => none
      | some w => orElseO (lookupLast b k) (some w) := by
  induction a with
  | nil => rfl
  | cons kv rest ih =>
    rw [List.map_cons, lookupLast_cons, lookupLast_cons, ih]
    cases hr : lookupLast rest k with
    | some w => cases hb : lookupLast b k <;> simp [orElseO]
    | none =>
      simp only [orElseO_none]
      by_cases hk : kv.1 = k
      · rw [if_pos (by rw [spreadUpd_fst]; exact hk), if_pos hk]
        subst hk
        unfold spreadUpd
        cases hb : lookupLast b kv.1 <;> simp [orElseO]
      · rw [if_neg (by rw [spreadUpd_fst]; exact hk), if_neg hk]

/-- Fundamental law of the spread merge: lookups prefer the right
object and fall back to the left. -/
theorem lookupLast_spreadObj (a b : Obj) (k : JStr) :
    lookupLast (spreadObj a b) k =
      orElseO (lookupLast b k) (lookupLast a k) := by
  rw [spreadObj_eq, lookupLast_append, lookupLast_map_spreadUpd]
  by_cases ha : hasKey a k = true
  · have hsome := (hasKey_iff_lookupLast a k).mp ha
    obtain ⟨w, hw⟩ := Option.isSome_iff_exists.mp hsome
    rw [hw]
    have hnone : lookupLast (b.filter (fun kv => !hasKey a kv.1)) k = none := by
      apply lookupLast_eq_none
      intro kv hkv
      intro hk
      have := List.of_mem_filter hkv
      rw [hk, ha] at this
      cases this
    rw [hnone, orElseO_none]
  · have hnone : lookupLast a k = none := by
      cases hl : lookupLast a k
      · rfl
      · exact absurd ((hasKey_iff_lookupLast a k).mpr (by rw [hl]; rfl)) ha
    rw [hnone]
    have hfilter : lookupLast (b.filter (fun kv => !hasKey a kv.1)) k = lookupLast b k := by
      apply lookupLast_filter
      intro kv hkv hk
      rw [hk]
      cases hh : hasKey a k
      · rfl
      · exact absurd hh ha
    rw [hfilter]

/-- Spreading into an empty object copies it. -/
theorem spreadObj_nil (b : Obj) : spreadObj [] b = b := by
  unfold spreadObj
  simp [hasKey]

/-! ### Reference characterization of `dedupeSources` (claim C5),
written from the claim's words: unique urls, first-occurrence order,
last-write-wins shallow merge per url group. -/

/-- Append a key only when new. -/
def insertNewKey (acc : List JStr) (u : JStr) : List JStr :=
  if u ∈ acc then acc else acc ++ [u]

/-- One step of first-occurrence url collection. -/
def firstStep (acc : List JStr) (s : Obj) : List JStr :=
  match sourceUrl s with
  | some u => insertNewKey acc u
  | none => acc

/-- Urls of a source list, each at the position of its first
occurrence. -/
def firstOccurUrls (sources : List Obj) : List JStr :=
  sources.foldl firstStep []

/-- Shallow merge of all entries sharing url `u`, later entries
overwriting earlier ones.  Stated from the claim's words, to be
compared against `dedupeSources`. -/
def mergedForUrl (sources : List Obj) (u : JStr) : Obj :=
  (sources.filter (fun s => sourceUrl s = some u)).foldl spreadObj []

/-- Reference implementation of claim C5's description of
`dedupeSources`. -/
def dedupeSourcesSpec (sources : List Obj) : List Obj :=
  (firstOccurUrls sources).map (mergedForUrl sources)

/-- Membership through `insertNewKey`. -/
theorem mem_insertNewKey (acc : List JStr) (u v : JStr) :
    v ∈ insertNewKey acc u ↔ v ∈ acc ∨ v = u := by
  unfold insertNewKey
  by_cases h : u ∈ acc
  · rw [if_pos h]
    constructor
    · exact Or.inl
    · rintro (h1 | rfl)
      · exact h1
      · exact h
  · rw [if_neg h]
    simp [List.mem_append]

/-- `insertNewKey` preserves distinctness. -/
theorem nodup_insertNewKey (acc : List JStr) (u : JStr) (h : acc.Nodup) :
    (insertNewKey acc u).Nodup := by
  unfold insertNewKey
  by_cases hc : u ∈ acc
  · rw [if_pos hc]; exact h
  · rw [if_neg hc]
    simp [List.nodup_append, h, hc]

/-- First-occurrence membership from any accumulator. -/
theorem mem_firstOccur_aux (l : List Obj) :
    ∀ (acc : List JStr) (v : JStr),
      v ∈ l.foldl firstStep acc ↔ v ∈ acc ∨ ∃ s ∈ l, sourceUrl s = some v := by
  induction l with
  | nil => intro acc v; simp
  | cons s rest ih =>
    intro acc v
    rw [List.foldl_cons, ih]
    constructor
    · rintro (hacc | ⟨x, hx, hxv⟩)
      · unfold firstStep at hacc
        cases hu : sourceUrl s with
        | none => rw [hu] at hacc; exact Or.inl hacc
        | some u =>
          rw [hu, mem_insertNewKey] at hacc
          rcases hacc with h1 | rfl
          · exact Or.inl h1
          · exact Or.inr ⟨s, List.mem_cons_self s rest, hu⟩
      · exact Or.inr ⟨x, List.mem_cons_of_mem s hx, hxv⟩
    · rintro (hacc | ⟨x, hx, hxv⟩)
      · left
        unfold firstStep
        cases hu : sourceUrl s with
        | none => exact hacc
        | some u => rw [mem_insertNewKey]; exact Or.inl hacc
      · rcases List.mem_cons.mp hx with rfl | hx'
        · left
          unfold firstStep
          rw [hxv, mem_insertNewKey]
          exact Or.inr rfl
        · exact Or.inr ⟨x, hx', hxv⟩

/-- The urls of a source list in first-occurrence order. -/
theorem mem_firstOccurUrls (sources : List Obj) (v : JStr) :
    v ∈ firstOccurUrls sources ↔ ∃ s ∈ sources, sourceUrl s = some v := by
  rw [firstOccurUrls, mem_firstOccur_aux]
  simp

/-- First-occurrence urls are distinct. -/
theorem nodup_firstOccur_aux (l : List Obj) :
    ∀ acc : List JStr, acc.Nodup → (l.foldl firstStep acc).Nodup := by
  induction l with
  | nil => intro acc h; exact h
  | cons s rest ih =>
    intro acc h
    rw [List.foldl_cons]
    apply ih
    unfold firstStep
    cases sourceUrl s with
    | none => exact h
    | some u => exact nodup_insertNewKey acc u h

/-- The first-occurrence url list has no duplicates. -/
theorem nodup_firstOccurUrls (sources : List Obj) :
    (firstOccurUrls sources).Nodup :=
  nodup_firstOccur_aux sources [] List.nodup_nil

/-- A source with a recognised url has a present `url` binding. -/
theorem lookupLast_isSome_of_sourceUrl {s : Obj} {u : JStr}
    (h : sourceUrl s = some u) : (lookupLast s keyUrl).isSome = true := by
  unfold sourceUrl at h
  cases hls : lookupLast s keyUrl with
  | none => rw [hls] at h; cases h
  | some v => rfl

/-- Spreading over an object that has a `url` binding keeps the right
object's url. -/
theorem sourceUrl_spreadObj_right (a s : Obj)
    (hls : (lookupLast s keyUrl).isSome = true) :
    sourceUrl (spreadObj a s) = sourceUrl s := by
  obtain ⟨v, hv⟩ := Option.isSome_iff_exists.mp hls
  unfold sourceUrl
  rw [lookupLast_spreadObj, hv, orElseO_some]

/-- Folding spread over url-`u` entries keeps url `u`. -/
theorem sourceUrl_foldl_spread (u : JStr) :
    ∀ (group : List Obj) (acc : Obj),
      (∀ g ∈ group, sourceUrl g = some u) →
      sourceUrl acc = some u →
      sourceUrl (group.foldl spreadObj acc) = some u
  | [], _, _, hacc => hacc
  | g :: rest, acc, hall, hacc => by
    rw [List.foldl_cons]
    refine sourceUrl_foldl_spread u rest (spreadObj acc g)
      (fun x hx => hall x (List.mem_cons_of_mem g hx)) ?_
    rw [sourceUrl_spreadObj_right acc g
      (lookupLast_isSome_of_sourceUrl (hall g (List.mem_cons_self g rest)))]
    exact hall g (List.mem_cons_self g rest)

/-- The merged entry of a url that does occur carries that url. -/
theorem sourceUrl_mergedForUrl (sources : List Obj) (u : JStr)
    (hmem : u ∈ firstOccurUrls sources) :
    sourceUrl (mergedForUrl sources u) = some u := by
  obtain ⟨s, hs, hsu⟩ := (mem_firstOccurUrls sources u).mp hmem
  have hsg : s ∈ sources.filter (fun s' => sourceUrl s' = some u) :=
    List.mem_filter.mpr ⟨hs, by simp [hsu]⟩
  unfold mergedForUrl
  cases hg : sources.filter (fun s' => sourceUrl s' = some u) with
  | nil => rw [hg] at hsg; cases hsg
  | cons g rest =>
    have hall : ∀ x ∈ g :: rest, sourceUrl x = some u := by
      intro x hx
      have hxf : x ∈ sources.filter (fun s' => sourceUrl s' = some u) := hg ▸ hx
      have := (List.mem_filter.mp hxf).2
      simpa using this
    rw [List.foldl_cons, spreadObj_nil]
    exact sourceUrl_foldl_spread u rest g
      (fun x hx => hall x (List.mem_cons_of_mem g hx))
      (hall g (List.mem_cons_self g rest))

/-- The `Map` entry list built from a prefix of the input. -/
def mapOfSources (pre : List Obj) : List (JStr × Obj) :=
  (firstOccurUrls pre).map (fun u => (u, mergedForUrl pre u))

/-- Appending one source advances the first-occurrence fold one step. -/
theorem firstOccurUrls_append_one (pre : List Obj) (s : Obj) :
    firstOccurUrls (pre ++ [s]) = firstStep (firstOccurUrls pre) s := by
  unfold firstOccurUrls
  rw [List.foldl_append]
  rfl

/-- Appending a source with a different url leaves a group merge
unchanged. -/
theorem mergedForUrl_append_ne (pre : List Obj) (s : Obj) (u : JStr)
    (h : sourceUrl s ≠ some u) :
    mergedForUrl (pre ++ [s]) u = mergedForUrl pre u := by
  unfold mergedForUrl
  rw [List.filter_append]
  have hnil : [s].filter (fun s' => sourceUrl s' = some u) = [] := by
    simp [h]
  rw [hnil, List.append_nil]

/-- Appending a source with url `u` spreads it over the group merge. -/
theorem mergedForUrl_append_eq (pre : List Obj) (s : Obj) (u : JStr)
    (h : sourceUrl s = some u) :
    mergedForUrl (pre ++ [s]) u = spreadObj (mergedForUrl pre u) s := by
  unfold mergedForUrl
  rw [List.filter_append]
  have hone : [s].filter (fun s' => sourceUrl s' = some u) = [s] := by
    simp [h]
  rw [hone, List.foldl_append]
  rfl

/-- An unseen url has an empty group. -/
theorem mergedForUrl_of_not_mem (pre : List Obj) (u : JStr)
    (h : u ∉ firstOccurUrls pre) : mergedForUrl pre u = [] := by
  unfold mergedForUrl
  have hnil : pre.filter (fun s' => sourceUrl s' = some u) = [] := by
    rw [List.filter_eq_nil_iff]
    intro s hs
    simp only [decide_eq_true_eq]
    intro hc
    exact h ((mem_firstOccurUrls pre u).mpr ⟨s, hs, hc⟩)
  rw [hnil]
  rfl

/-- Finding a key in a keyed map of pairs. -/
theorem find_map_pair (urls : List JStr) (g : JStr → Obj) (u : JStr) :
    ((urls.map (fun x => (x, g x))).find? (fun kv => kv.1 = u)) =
      if u ∈ urls then some (u, g u) else none := by
  induction urls with
  | nil => rfl
  | cons a l ih =>
    rw [List.map_cons, List.find?_cons]
    by_cases h : a = u
    · subst h
      simp
    · have hd : (decide (a = u)) = false := decide_eq_false h
      simp only [hd, ih]
      have hmem : (u ∈ a :: l) ↔ (u ∈ l) := by
        rw [List.mem_cons]
        constructor
        · rintro (rfl | h2)
          · exact absurd rfl h
          · exact h2
        · exact Or.inr
      exact (if_congr hmem rfl rfl).symm

/-- Key-presence test on a keyed map of pairs. -/
theorem any_map_pair (urls : List JStr) (g : JStr → Obj) (u : JStr) :
    ((urls.map (fun x => (x, g x))).any (fun kv => kv.1 = u)) = decide (u ∈ urls) := by
  induction urls with
  | nil => rfl
  | cons a l ih =>
    rw [List.map_cons, List.any_cons, ih]
    by_cases h : a = u
    · subst h; simp
    · have hd : (decide (a = u)) = false := decide_eq_false h
      have hmem : (u ∈ a :: l) ↔ (u ∈ l) := by
        rw [List.mem_cons]
        constructor
        · rintro (rfl | h2)
          · exact absurd rfl h
          · exact h2
        · exact Or.inr
      show (decide (a = u) || decide (u ∈ l)) = decide (u ∈ a :: l)
      rw [hd, Bool.false_or, decide_eq_decide.mpr hmem]

/-- Reduction of `firstStep` at a recognised url. -/
theorem firstStep_some (acc : List JStr) (s : Obj) (u : JStr)
    (h : sourceUrl s = some u) : firstStep acc s = insertNewKey acc u := by
  unfold firstStep
  rw [h]

/-- One `dedupeStep` advances the map characterization by one source. -/
theorem dedupeStep_mapOf (pre : List Obj) (s : Obj) :
    dedupeStep (mapOfSources pre) s = mapOfSources (pre ++ [s]) := by
  unfold dedupeStep
  cases hu : sourceUrl s with
  | none =>
    unfold mapOfSources
    rw [firstOccurUrls_append_one]
    unfold firstStep
    rw [hu]
    refine (List.map_congr_left ?_).symm
    intro v _
    rw [mergedForUrl_append_ne pre s v (by rw [hu]; exact fun hc => Option.noConfusion hc)]
  | some u =>
    have hget : mapGet (mapOfSources pre) u =
        if u ∈ firstOccurUrls pre then some (mergedForUrl pre u) else none := by
      unfold mapGet mapOfSources
      rw [find_map_pair]
      by_cases hmem : u ∈ firstOccurUrls pre
      · rw [if_pos hmem, if_pos hmem]
        rfl
      · rw [if_neg hmem, if_neg hmem]
        rfl
    show (match mapGet (mapOfSources pre) u with
      | none => mapSet (mapOfSources pre) u (spreadObj [] s)
      | some existing => mapSet (mapOfSources pre) u (spreadObj existing s)) =
        mapOfSources (pre ++ [s])
    by_cases hmem : u ∈ firstOccurUrls pre
    · rw [hget, if_pos hmem]
      show mapSet (mapOfSources pre) u (spreadObj (mergedForUrl pre u) s) =
        mapOfSources (pre ++ [s])
      unfold mapSet mapOfSources
      rw [any_map_pair, decide_eq_true hmem, if_pos rfl, List.map_map,
        firstOccurUrls_append_one, firstStep_some _ s u hu,
        show insertNewKey (firstOccurUrls pre) u = firstOccurUrls pre from by
          unfold insertNewKey; rw [if_pos hmem]]
      apply List.map_congr_left
      intro v hv
      by_cases hvu : v = u
      · subst hvu
        simp only [Function.comp]
        rw [if_pos trivial, mergedForUrl_append_eq pre s v hu]
      · simp only [Function.comp]
        rw [if_neg hvu, mergedForUrl_append_ne pre s v
          (by rw [hu]; intro hc; exact hvu (Option.some.inj hc).symm)]
    · rw [hget, if_neg hmem]
      show mapSet (mapOfSources pre) u (spreadObj [] s) = mapOfSources (pre ++ [s])
      unfold mapSet mapOfSources
      rw [any_map_pair, decide_eq_false hmem]
      rw [if_neg (by exact fun hc => Bool.false_ne_true hc)]
      rw [firstOccurUrls_append_one, firstStep_some _ s u hu,
        show insertNewKey (firstOccurUrls pre) u = firstOccurUrls pre ++ [u] from by
          unfold insertNewKey; rw [if_neg hmem]]
      rw [List.map_append]
      congr 1
      · apply List.map_congr_left
        intro v hv
        have hvu : v ≠ u := fun hc => hmem (hc ▸ hv)
        rw [mergedForUrl_append_ne pre s v
          (by rw [hu]; intro hc; exact hvu (Option.some.inj hc).symm)]
      · rw [List.map_singleton, mergedForUrl_append_eq pre s u hu,
          mergedForUrl_of_not_mem pre u hmem]

/-- The whole fold is characterized by the map of merged groups. -/
theorem foldl_dedupeStep_eq (suffix : List Obj) :
    ∀ pre : List Obj,
      suffix.foldl dedupeStep (mapOfSources pre) = mapOfSources (pre ++ suffix) := by
  induction suffix with
  | nil => intro pre; rw [List.append_nil]; rfl
  | cons s rest ih =>
    intro pre
    rw [List.foldl_cons, dedupeStep_mapOf, ih (pre ++ [s]), List.append_assoc,
      List.singleton_append]

/-- Claim C5: `dedupeSources` equals the reference implementation built
from the claim's words (each output element is the last-write-wins
shallow merge of all input entries sharing its url, ordered by first
occurrence); output urls are exactly the first-occurrence urls, in
order, and they are pairwise distinct. -/
theorem dedupeSources_characterization (sources : List Obj) :
    dedupeSources sources = dedupeSourcesSpec sources
    ∧ (dedupeSources sources).map sourceUrl = (firstOccurUrls sources).map some
    ∧ (firstOccurUrls sources).Nodup := by
  have hmain : sources.foldl dedupeStep [] = mapOfSources sources := by
    have h0 : mapOfSources [] = [] := rfl
    have := foldl_dedupeStep_eq sources []
    rw [h0] at this
    rw [this, List.nil_append]
  refine ⟨?_, ?_, nodup_firstOccurUrls sources⟩
  · unfold dedupeSources dedupeSourcesSpec
    rw [hmain]
    unfold mapOfSources
    rw [List.map_map]
    rfl
  · unfold dedupeSources
    rw [hmain]
    unfold mapOfSources
    rw [List.map_map, List.map_map]
    apply List.map_congr_left
    intro u hu
    simp only [Function.comp]
    exact sourceUrl_mergedForUrl sources u hu

/-! ### enrichSources (`llm.js` lines 610-641).  `fetchUrlMetadata` and
`saveRemoteImage` are collaborators outside the core; modelled from the
spec: the metadata fetch resolves to a metadata object (or nothing) and
`saveRemoteImage` never throws, returning null on failure. -/

/-- Key `description`. -/
def keyDescription : JStr := "description".toList

/-- Key `image_cached`. -/
def keyImageCached : JStr := "image_cached".toList

/-- Key `image_fallback`. -/
def keyImageFallback : JStr := "image_fallback".toList

/-- JavaScript `a || b || dflt` over possibly absent operands. -/
def firstTruthy2 (a b : Option JsonValue) (dflt : JsonValue) : JsonValue :=
  if jsTruthyOpt a then a.getD .jnull
  else if jsTruthyOpt b then b.getD .jnull
  else dflt

/-- The merged source after metadata merge and image caching (the state
of `merged` just before `image_fallback` is assigned). -/
def enrichMerged (fetchMeta : JsonValue → JsonValue)
    (saveRemote : JsonValue → Option SavedImage) (source : Obj) : Obj :=
  let metadata : JsonValue :=
    if jsTruthyOpt (lookupLast source keyUrl) then
      fetchMeta ((lookupLast source keyUrl).getD .jnull)
    else .jnull
  let merged := setField (setField (setField (spreadObj [] source)
    keyTitle (firstTruthy2 (lookupLast source keyTitle)
      (getField metadata keyTitle) (.jstr [])))
    keyDescription (firstTruthy2 (getField metadata keyDescription)
      (lookupLast source keyDescription) (.jstr [])))
    keyImage (firstTruthy2 (getField metadata keyImage)
      (lookupLast source keyImage) .jnull)
  if jsTruthyOpt (lookupLast merged keyImage) then
    match saveRemote (.jobj [(keyUrl, (lookupLast merged keyImage).getD .jnull)]) with
    | some cached =>
      if jsTruthy cached.url then setField merged keyImageCached cached.url
      else merged
    | none => merged
  else merged

/-- The seed of the fallback placeholder: `merged.title || merged.url`. -/
def seedOf (o : Obj) : Option JsonValue :=
  if jsTruthyOpt (lookupLast o keyTitle) then lookupLast o keyTitle
  else lookupLast o keyUrl

/-- The assigned fallback: `merged.image_cached ||
fallbackImageUrl(merged.title || merged.url)`. -/
def fallbackValueOf (m2 : Obj) : JsonValue :=
  if jsTruthyOpt (lookupLast m2 keyImageCached) then
    (lookupLast m2 keyImageCached).getD .jnull
  else .jstr (fallbackImageUrl (seedOf m2))

/-- Enrichment of one deduplicated source. -/
def enrichOne (fetchMeta : JsonValue → JsonValue)
    (saveRemote : JsonValue → Option SavedImage) (source : Obj) : Obj :=
  let m2 := enrichMerged fetchMeta saveRemote source
  setField m2 keyImageFallback (fallbackValueOf m2)

/-- Model of `enrichSources`: dedupe, truncate to `max`, enrich each
source (the concurrent metadata fan-out preserves input order and is
awaited as a batch, so the sequential map is its meaning). -/
def enrichSources (fetchMeta : JsonValue → JsonValue)
    (saveRemote : JsonValue → Option SavedImage)
    (sources : List Obj) (max : Nat) : List Obj :=
  ((dedupeSources sources).take max).map (enrichOne fetchMeta saveRemote)

/-- A truthy optional value is a truthy value. -/
theorem jsTruthyOpt_exists {o : Option JsonValue}
    (h : jsTruthyOpt o = true) : ∃ x, o = some x ∧ jsTruthy x = true := by
  cases o with
  | none => cases h
  | some x => exact ⟨x, rfl, h⟩

/-- The placeholder URL is never empty. -/
theorem fallbackImageUrl_ne_nil (seed : Option JsonValue) :
    fallbackImageUrl seed ≠ [] := by
  simp [fallbackImageUrl]

/-- The placeholder URL always starts with the picsum seed route. -/
theorem fallbackImageUrl_wellFormed (seed : Option JsonValue) :
    ("https://picsum.photos/seed/".toList).isPrefixOf (fallbackImageUrl seed) = true := by
  unfold fallbackImageUrl
  rw [List.isPrefixOf_iff_prefix, List.append_assoc]
  exact List.prefix_append _ _

/-- Lookup of an updated key after in-place update. -/
theorem lookupLast_map_update (l : Obj) (k : JStr) (v : JsonValue) :
    lookupLast (l.map (fun kv => if kv.1 = k then (kv.1, v) else kv)) k =
      if hasKey l k then some v else none := by
  induction l with
  | nil => rfl
  | cons kv rest ih =>
    rw [List.map_cons]
    by_cases hk : kv.1 = k
    · rw [if_pos hk, lookupLast_cons, ih]
      have hck : hasKey (kv :: rest) k = true := by
        simp [hasKey, hk]
      rw [if_pos hck]
      by_cases hr : hasKey rest k = true
      · rw [if_pos hr, orElseO_some]
      · rw [if_neg hr, orElseO_none, if_pos hk]
    · rw [if_neg hk, lookupLast_cons, ih]
      have hck : hasKey (kv :: rest) k = hasKey rest k := by
        simp [hasKey, hk]
      rw [hck, if_neg hk]
      by_cases hr : hasKey rest k = true
      · rw [if_pos hr]
        rfl
      · rw [if_neg hr]
        rfl

/-- Assignment makes the key's lookup yield the assigned value. -/
theorem lookupLast_setField (l : Obj) (k : JStr) (v : JsonValue) :
    lookupLast (setField l k v) k = some v := by
  unfold setField
  by_cases h : hasKey l k = true
  · rw [if_pos h, lookupLast_map_update, if_pos h]
  · rw [if_neg h, lookupLast_append]
    have hone : lookupLast [(k, v)] k = some v := by
      simp [lookupLast]
    rw [hone, orElseO_some]

/-- Claim C6: every element of the enriched source list carries a
truthy (non-null) `image_fallback`, equal either to the locally cached
image URL or to the deterministic seeded placeholder computed from the
source's title or url, the latter always a well-formed picsum URL. -/
theorem enrichSources_image_fallback (fetchMeta : JsonValue → JsonValue)
    (saveRemote : JsonValue → Option SavedImage)
    (sources : List Obj) (max : Nat) :
    ∀ e ∈ enrichSources fetchMeta saveRemote sources max,
      ∃ m2 v, e = setField m2 keyImageFallback v ∧
        lookupLast e keyImageFallback = some v ∧ jsTruthy v = true ∧
        (lookupLast m2 keyImageCached = some v ∨
          (v = .jstr (fallbackImageUrl (seedOf m2)) ∧
            ("https://picsum.photos/seed/".toList).isPrefixOf
              (fallbackImageUrl (seedOf m2)) = true)) := by
  intro e he
  unfold enrichSources at he
  obtain ⟨s, _, rfl⟩ := List.mem_map.mp he
  refine ⟨enrichMerged fetchMeta saveRemote s,
    fallbackValueOf (enrichMerged fetchMeta saveRemote s), rfl,
    lookupLast_setField _ _ _, ?_, ?_⟩
  · unfold fallbackValueOf
    by_cases hc : jsTruthyOpt (lookupLast (enrichMerged fetchMeta saveRemote s) keyImageCached) = true
    · rw [if_pos hc]
      obtain ⟨x, hx, hxt⟩ := jsTruthyOpt_exists hc
      rw [hx]
      exact hxt
    · rw [if_neg hc]
      have hne := fallbackImageUrl_ne_nil (seedOf (enrichMerged fetchMeta saveRemote s))
      simp [jsTruthy, List.isEmpty_iff, hne]
  · unfold fallbackValueOf
    by_cases hc : jsTruthyOpt (lookupLast (enrichMerged fetchMeta saveRemote s) keyImageCached) = true
    · rw [if_pos hc]
      obtain ⟨x, hx, _⟩ := jsTruthyOpt_exists hc
      rw [hx]
      exact Or.inl rfl
    · rw [if_neg hc]
      exact Or.inr ⟨rfl, fallbackImageUrl_wellFormed _⟩

/-- A concrete source for the C6 witness. -/
def c6Source : Obj := [(keyUrl, .jstr ("https://example.com".toList))]

/-- Witness for C6 at a metadata oracle returning nothing and a media
collaborator that always fails: the fallback is the seeded placeholder. -/
theorem enrichSources_image_fallback_witness :
    ∃ m2 v, enrichOne (fun _ => .jnull) (fun _ => none) c6Source =
        setField m2 keyImageFallback v ∧
      lookupLast (enrichOne (fun _ => .jnull) (fun _ => none) c6Source)
        keyImageFallback = some v ∧ jsTruthy v = true ∧
      (lookupLast m2 keyImageCached = some v ∨
        (v = .jstr (fallbackImageUrl (seedOf m2)) ∧
          ("https://picsum.photos/seed/".toList).isPrefixOf
            (fallbackImageUrl (seedOf m2)) = true)) :=
  enrichSources_image_fallback (fun _ => .jnull) (fun _ => none) [c6Source] 6
    (enrichOne (fun _ => .jnull) (fun _ => none) c6Source)
    (by
      show enrichOne (fun _ => .jnull) (fun _ => none) c6Source ∈
        ((dedupeSources [c6Source]).take 6).map (enrichOne (fun _ => .jnull) (fun _ => none))
      exact List.mem_map.mpr ⟨c6Source, List.mem_singleton.mpr rfl, rfl⟩)

/-! ### ensurePlanImages (`llm.js` lines 416-492) -/

/-- Key `generated_image`. -/
def keyGeneratedImage : JStr := "generated_image".toList

/-- Key `items`. -/
def keyItems : JStr := "items".toList

/-- Model of `isLikelyLowValueImageUrl` (`llm.js` line 416) on an
optional field value: falsy urls count as low value; the substring
blocklist runs on the lowercased url.  A truthy non-string url raises a
TypeError in the source; the PlanItem data model types `image` as a
string or null, and the theorems stay inside it. -/
def isLikelyLowValueImageUrl (url : Option JsonValue) : Bool :=
  if !jsTruthyOpt url then true
  else
    match url with
    | some (.jstr s) =>
      let lower := lowerStr s
      hasSub lower ("logo".toList) || hasSub lower ("favicon".toList) ||
      hasSub lower ("sprite".toList) || hasSub lower ("icon".toList) ||
      hasSub lower ("placeholder".toList) || hasSub lower ("spacer".toList) ||
      hasSub lower ("default".toList) || hasSub lower ("picsum.photos".toList)
    | _ => true

/-- Model of `buildImagePromptForItem` (`llm.js` line 431). -/
def buildImagePromptForItem (item : JsonValue) (language : Option JsonValue) : JStr :=
  let title := if jsTruthyOpt (getField item keyTitle) then
      (getField item keyTitle).getD .jnull
    else if jsTruthyOpt (getField item keySourceTitle) then
      (getField item keySourceTitle).getD .jnull
    else .jstr ("news".toList)
  let summary := if jsTruthyOpt (getField item ("summary".toList)) then
      (getField item ("summary".toList)).getD .jnull
    else if jsTruthyOpt (getField item keyContent) then
      (getField item keyContent).getD .jnull
    else .jstr []
  let hint := if jsTruthyOpt (getField item ("image_hint".toList)) then
      (getField item ("image_hint".toList)).getD .jnull
    else .jstr []
  let base := jsTrim (jsToString title ++ ". ".toList ++ jsToString summary)
  let isKo : Bool := match language with
    | some (.jstr l) => l = "ko".toList
    | _ => false
  if isKo then
    jsTrim ("다음 내용을 시각적으로 설명하는 고품질 일러스트: ".toList ++ base ++
      ". ".toList ++ jsToString hint)
  else
    jsTrim ("Create a high-quality, photojournalistic illustration for: ".toList ++
      base ++ ". ".toList ++ jsToString hint)

/-- The two provider image generators, as collaborator oracles.
Modelled from the spec: generation is fallible; a throw carries a
message. -/
structure ImageGenOracles where
  openai : JStr → Except JStr SavedImage
  gemini : JStr → Except JStr SavedImage

/-- Model of `generateImageForPrompt` (`llm.js` line 449): dispatch on
the provider, swallow failures into `null`. -/
def generateImageForPrompt (or : ImageGenOracles) (provider prompt : JStr) :
    Option SavedImage :=
  if provider = "openai".toList then
    match or.openai prompt with
    | .ok r => some r
    | .error _ => none
  else if provider = "gemini".toList then
    match or.gemini prompt with
    | .ok r => some r
    | .error _ => none
  else none

/-- The three-field update of a successfully illustrated item. -/
def genUpdate (o : Obj) (u : JsonValue) : Obj :=
  setField (setField (setField o keyImage u) keyImageFallback u) keyGeneratedImage u

/-- One iteration of the `ensurePlanImages` loop body under the
`generatedCount < max` guard: returns the updated item and whether the
counter advanced. -/
def ensureOneItem (or : ImageGenOracles) (lang : Option JsonValue)
    (provider : JStr) (force : Bool) (item : JsonValue) : Obj × Bool :=
  let updatedItem := spreadObj [] (objOf item)
  let needsImage := force || !jsTruthyOpt (lookupLast updatedItem keyImage) ||
    isLikelyLowValueImageUrl (lookupLast updatedItem keyImage)
  if needsImage then
    match generateImageForPrompt or provider
        (buildImagePromptForItem (.jobj updatedItem) lang) with
    | some generated =>
      if jsTruthy generated.url then
        (setField (setField (setField updatedItem keyImage
            (if jsTruthyOpt (lookupLast updatedItem keyImage) &&
                !isLikelyLowValueImageUrl (lookupLast updatedItem keyImage) then
              (lookupLast updatedItem keyImage).getD .jnull
            else generated.url))
          keyImageFallback generated.url)
          keyGeneratedImage generated.url, true)
      else (updatedItem, false)
    | none => (updatedItem, false)
  else (updatedItem, false)

/-- The `for (const item of plan.items)` loop with its generated-image
counter. -/
def ensureItemsLoop (or : ImageGenOracles) (lang : Option JsonValue)
    (provider : JStr) (max : Nat) (force : Bool) :
    Nat → List JsonValue → List JsonValue
  | _, [] => []
  | generatedCount, item :: rest =>
    if generatedCount < max then
      let r := ensureOneItem or lang provider force item
      .jobj r.1 :: ensureItemsLoop or lang provider max force
        (generatedCount + (if r.2 then 1 else 0)) rest
    else
      .jobj (spreadObj [] (objOf item)) ::
        ensureItemsLoop or lang provider max force generatedCount rest

/-- Model of `ensurePlanImages`: plans without an items array are
returned untouched; otherwise the loop rebuilds the items and the plan
is spread with the new array. -/
def ensurePlanImages (or : ImageGenOracles) (plan : JsonValue)
    (provider : JStr) (max : Nat) (force : Bool) : JsonValue :=
  match getField plan keyItems with
  | some (.jarr items) =>
    .jobj (setField (objOf plan) keyItems
      (.jarr (ensureItemsLoop or (getField plan ("language".toList))
        provider max force 0 items)))
  | _ => plan

/-- Lookup through the object payload agrees with the field read. -/
theorem getField_jobj_objOf (v : JsonValue) (k : JStr) :
    lookupLast (objOf v) k = getField v k := by
  cases v <;> rfl

/-- Whether an item newly gained a truthy `generated_image`. -/
def receivesGen (inp outp : JsonValue) : Bool :=
  jsTruthyOpt (getField outp keyGeneratedImage) &&
  !jsTruthyOpt (getField inp keyGeneratedImage)

/-- A spread copy never newly receives a generated image. -/
theorem receivesGen_clone (item : JsonValue) :
    receivesGen item (.jobj (spreadObj [] (objOf item))) = false := by
  unfold receivesGen
  rw [spreadObj_nil]
  show (jsTruthyOpt (lookupLast (objOf item) keyGeneratedImage) &&
    !jsTruthyOpt (getField item keyGeneratedImage)) = false
  rw [getField_jobj_objOf]
  exact Bool.and_not_self _

/-- Case analysis of one loop-body iteration: either the item is left
as its spread copy with the counter unmoved, or a truthy-url generation
happened and the three image fields were assigned. -/
theorem ensureOneItem_cases (or : ImageGenOracles) (lang : Option JsonValue)
    (provider : JStr) (force : Bool) (item : JsonValue) :
    ensureOneItem or lang provider force item = (spreadObj [] (objOf item), false) ∨
    (∃ g, ensureOneItem or lang provider force item =
        (setField (setField (setField (spreadObj [] (objOf item)) keyImage
          (if jsTruthyOpt (lookupLast (spreadObj [] (objOf item)) keyImage) &&
              !isLikelyLowValueImageUrl (lookupLast (spreadObj [] (objOf item)) keyImage) then
            (lookupLast (spreadObj [] (objOf item)) keyImage).getD .jnull
          else g.url))
          keyImageFallback g.url) keyGeneratedImage g.url, true) ∧
      generateImageForPrompt or provider
        (buildImagePromptForItem (.jobj (spreadObj [] (objOf item))) lang) = some g ∧
      jsTruthy g.url = true) := by
  simp only [ensureOneItem]
  split
  · split
    · rename_i g hg
      split
      · rename_i hu
        right
        exact ⟨g, rfl, hg, hu⟩
      · left; rfl
    · left; rfl
  · left; rfl

/-- The loop answers one output item per input item. -/
theorem ensureItemsLoop_length (or : ImageGenOracles) (lang : Option JsonValue)
    (provider : JStr) (max : Nat) (force : Bool) :
    ∀ (items : List JsonValue) (gc : Nat),
      (ensureItemsLoop or lang provider max force gc items).length = items.length
  | [], _ => rfl
  | item :: rest, gc => by
    unfold ensureItemsLoop
    by_cases h : gc < max
    · rw [if_pos h]
      simp only [List.length_cons,
        ensureItemsLoop_length or lang provider max force rest]
    · rw [if_neg h]
      simp only [List.length_cons,
        ensureItemsLoop_length or lang provider max force rest]

/-- Arithmetic step of the budget bound. -/
theorem count_step_le {a b m g : Nat} (ha : a ≤ m - (g + 1)) (hb : b ≤ 1)
    (h : g < m) : a + b ≤ m - g := by omega

/-- The loop hands out at most its remaining budget of generated
images. -/
theorem ensureItemsLoop_count (or : ImageGenOracles) (lang : Option JsonValue)
    (provider : JStr) (max : Nat) (force : Bool) :
    ∀ (items : List JsonValue) (gc : Nat),
      (List.zip items (ensureItemsLoop or lang provider max force gc items)).countP
        (fun p => receivesGen p.1 p.2) ≤ max - gc
  | [], _ => by simp [ensureItemsLoop]
  | item :: rest, gc => by
    unfold ensureItemsLoop
    by_cases h : gc < max
    · rw [if_pos h]
      rcases ensureOneItem_cases or lang provider force item with hc | ⟨g, hr, _, _⟩
      · rw [hc]
        simp only [List.zip_cons_cons, List.countP_cons, receivesGen_clone,
          if_neg (by simp : ¬((false : Bool) = true))]
        have := ensureItemsLoop_count or lang provider max force rest (gc + 0)
        simpa using this
      · rw [hr]
        simp only [List.zip_cons_cons, List.countP_cons, if_true]
        have hrec := ensureItemsLoop_count or lang provider max force rest (gc + 1)
        refine count_step_le hrec ?_ h
        repeat' split
        all_goals omega
    · rw [if_neg h]
      simp only [List.zip_cons_cons, List.countP_cons, receivesGen_clone,
        if_neg (by simp : ¬((false : Bool) = true))]
      have := ensureItemsLoop_count or lang provider max force rest gc
      simpa using this

/-- Under all-object, image-less items and an always-successful
generator, the loop illustrates exactly its remaining budget of items,
in order, and leaves the rest untouched. -/
theorem ensureItemsLoop_active (or : ImageGenOracles) (lang : Option JsonValue)
    (provider : JStr) (max : Nat) (force : Bool) (imgF : JStr → SavedImage)
    (hsucc : ∀ prompt, generateImageForPrompt or provider prompt = some (imgF prompt) ∧
      jsTruthy (imgF prompt).url = true) :
    ∀ (items : List JsonValue),
      (∀ item ∈ items, ∃ l, item = .jobj l) →
      (∀ item ∈ items, jsTruthyOpt (getField item keyImage) = false) →
      ∀ gc, ensureItemsLoop or lang provider max force gc items =
        (items.take (max - gc)).map (fun item =>
          .jobj (genUpdate (objOf item)
            (imgF (buildImagePromptForItem item lang)).url))
        ++ items.drop (max - gc)
  | [], _, _, gc => by simp [ensureItemsLoop]
  | item :: rest, hobj, hnoimg, gc => by
    have hobjr : ∀ x ∈ rest, ∃ l, x = .jobj l :=
      fun x hx => hobj x (List.mem_cons_of_mem item hx)
    have hnoimgr : ∀ x ∈ rest, jsTruthyOpt (getField x keyImage) = false :=
      fun x hx => hnoimg x (List.mem_cons_of_mem item hx)
    obtain ⟨l, rfl⟩ := hobj item (List.mem_cons_self item rest)
    have hclone : spreadObj [] (objOf (.jobj l)) = l := spreadObj_nil l
    unfold ensureItemsLoop
    by_cases h : gc < max
    · rw [if_pos h]
      have hfalse : jsTruthyOpt (lookupLast (spreadObj [] (objOf (.jobj l))) keyImage) = false := by
        rw [hclone]
        exact hnoimg (.jobj l) (List.mem_cons_self _ _)
      have hone : ensureOneItem or lang provider force (.jobj l) =
          (genUpdate l (imgF (buildImagePromptForItem (.jobj l) lang)).url, true) := by
        unfold ensureOneItem
        rw [if_pos (by rw [hfalse]; simp)]
        rw [hclone]
        have hs := hsucc (buildImagePromptForItem (.jobj l) lang)
        simp only [hs.1]
        rw [if_pos hs.2]
        have hival : (if jsTruthyOpt (lookupLast l keyImage) &&
            !isLikelyLowValueImageUrl (lookupLast l keyImage) then
            (lookupLast l keyImage).getD .jnull
          else (imgF (buildImagePromptForItem (.jobj l) lang)).url) =
            (imgF (buildImagePromptForItem (.jobj l) lang)).url := by
          rw [if_neg]
          rw [show jsTruthyOpt (lookupLast l keyImage) = false from by
            have := hnoimg (.jobj l) (List.mem_cons_self _ _)
            exact this]
          simp
        rw [hival]
        rfl
      rw [hone]
      have hmax : max - gc = (max - (gc + 1)) + 1 := by omega
      simp only [eq_self_iff_true, if_true]
      rw [ensureItemsLoop_active or lang provider max force imgF hsucc rest
        hobjr hnoimgr (gc + 1)]
      rw [hmax]
      simp [List.take_succ_cons, List.drop_succ_cons]
      rfl
    · rw [if_neg h]
      have hmax : max - gc = 0 := by omega
      rw [hmax]
      rw [ensureItemsLoop_active or lang provider max force imgF hsucc rest
        hobjr hnoimgr gc]
      rw [show max - gc = 0 from hmax, hclone]
      simp

/-- Claim C9: with an items array whose items are plain objects all
lacking an image, and an always-successful image generator, the plan
comes back with exactly the first `min(max, n)` items illustrated in
order (image, fallback and generated_image set to the generated URL)
and every remaining item untouched; and in all cases, for any oracle
and force flag, every item is processed (one output per input) while at
most `max` items newly receive a generated image. -/
theorem ensurePlanImages_budget (or : ImageGenOracles) (plan : JsonValue)
    (provider : JStr) (max : Nat) (force : Bool) (items : List JsonValue)
    (imgF : JStr → SavedImage)
    (hplan : getField plan keyItems = some (.jarr items)) :
    ((∀ item ∈ items, ∃ l, item = .jobj l) →
     (∀ item ∈ items, jsTruthyOpt (getField item keyImage) = false) →
     (∀ prompt, generateImageForPrompt or provider prompt = some (imgF prompt) ∧
        jsTruthy (imgF prompt).url = true) →
      ensurePlanImages or plan provider max force =
        .jobj (setField (objOf plan) keyItems (.jarr (
          (items.take max).map (fun item =>
            .jobj (genUpdate (objOf item)
              (imgF (buildImagePromptForItem item
                (getField plan ("language".toList)))).url))
          ++ items.drop max))))
    ∧ (ensureItemsLoop or (getField plan ("language".toList))
        provider max force 0 items).length = items.length
    ∧ (List.zip items (ensureItemsLoop or (getField plan ("language".toList))
        provider max force 0 items)).countP (fun p => receivesGen p.1 p.2) ≤ max := by
  refine ⟨?_, ensureItemsLoop_length or _ provider max force items 0, ?_⟩
  · intro hobj hnoimg hsucc
    simp only [ensurePlanImages, hplan]
    rw [ensureItemsLoop_active or _ provider max force imgF hsucc items hobj hnoimg 0]
    rfl
  · have := ensureItemsLoop_count or (getField plan ("language".toList))
      provider max force items 0
    simpa using this

/-- A concrete image-less plan item. -/
def c9Item : JsonValue := .jobj [(keyTitle, .jstr ['t'])]

/-- Five image-less items. -/
def c9Items : List JsonValue := [c9Item, c9Item, c9Item, c9Item, c9Item]

/-- A concrete plan wrapping the five items. -/
def c9Plan : JsonValue := .jobj [(keyItems, .jarr c9Items)]

/-- A generated image with a truthy URL. -/
def c9Img : SavedImage := ⟨.jstr ("http://img".toList), .jstr ['f']⟩

/-- Always-successful generator oracles. -/
def c9Or : ImageGenOracles := ⟨fun _ => .ok c9Img, fun _ => .ok c9Img⟩

/-- Witness for C9: a plan with `max = 2` and 5 image-less items gets
exactly the first 2 items illustrated, and the budget bound holds. -/
theorem ensurePlanImages_budget_witness :
    ensurePlanImages c9Or c9Plan ("gemini".toList) 2 false =
      .jobj (setField (objOf c9Plan) keyItems (.jarr (
        (c9Items.take 2).map (fun item =>
          .jobj (genUpdate (objOf item)
            ((fun _ => c9Img) (buildImagePromptForItem item
              (getField c9Plan ("language".toList)))).url))
        ++ c9Items.drop 2)))
    ∧ (List.zip c9Items (ensureItemsLoop c9Or
        (getField c9Plan ("language".toList)) ("gemini".toList) 2 false 0
        c9Items)).countP (fun p => receivesGen p.1 p.2) ≤ 2 :=
  ⟨(ensurePlanImages_budget c9Or c9Plan ("gemini".toList) 2 false c9Items
      (fun _ => c9Img) rfl).1
    (by
      intro item hi
      rcases (by simpa [c9Items] using hi : item = c9Item ∨ item = c9Item ∨
        item = c9Item ∨ item = c9Item ∨ item = c9Item) with rfl | rfl | rfl | rfl | rfl <;>
        exact ⟨[(keyTitle, .jstr ['t'])], rfl⟩)
    (by
      intro item hi
      rcases (by simpa [c9Items] using hi : item = c9Item ∨ item = c9Item ∨
        item = c9Item ∨ item = c9Item ∨ item = c9Item) with rfl | rfl | rfl | rfl | rfl <;>
        rfl)
    (fun _ => ⟨rfl, rfl⟩),
   (ensurePlanImages_budget c9Or c9Plan ("gemini".toList) 2 false c9Items
      (fun _ => c9Img) rfl).2.2⟩

/-! ### Frame properties of ensurePlanImages (claim C10) -/

/-- In-place update leaves other keys' lookups unchanged. -/
theorem lookupLast_map_update_ne (l : Obj) (k k' : JStr) (v : JsonValue)
    (h : k' ≠ k) :
    lookupLast (l.map (fun kv => if kv.1 = k then (kv.1, v) else kv)) k' =
      lookupLast l k' := by
  induction l with
  | nil => rfl
  | cons kv rest ih =>
    rw [List.map_cons]
    by_cases hk : kv.1 = k
    · rw [if_pos hk,
        show lookupLast ((kv.1, v) ::
            (rest.map (fun kv => if kv.1 = k then (kv.1, v) else kv))) k' =
          orElseO (lookupLast
            (rest.map (fun kv => if kv.1 = k then (kv.1, v) else kv)) k')
            (if kv.1 = k' then some v else none) from lookupLast_cons _ _ _,
        ih, lookupLast_cons kv rest k']
      have hk' : ¬kv.1 = k' := fun hc => h (by rw [← hc, hk])
      rw [if_neg hk', if_neg hk']
    · rw [if_neg hk, lookupLast_cons, lookupLast_cons, ih]

/-- Assignment leaves other keys' lookups unchanged. -/
theorem lookupLast_setField_ne (l : Obj) (k k' : JStr) (v : JsonValue)
    (h : k' ≠ k) : lookupLast (setField l k v) k' = lookupLast l k' := by
  unfold setField
  by_cases hk : hasKey l k = true
  · rw [if_pos hk, lookupLast_map_update_ne l k k' v h]
  · rw [if_neg hk, lookupLast_append,
      show lookupLast [(k, v)] k' = (if k = k' then some v else none) from rfl,
      if_neg (fun hc => h hc.symm), orElseO_none]

/-- One loop iteration only ever touches the three image fields. -/
theorem ensureOneItem_frame (or : ImageGenOracles) (lang : Option JsonValue)
    (provider : JStr) (force : Bool) (item : JsonValue) :
    ∀ k, k ≠ keyImage → k ≠ keyImageFallback → k ≠ keyGeneratedImage →
      lookupLast (ensureOneItem or lang provider force item).1 k =
        getField item k := by
  intro k h1 h2 h3
  rcases ensureOneItem_cases or lang provider force item with hc | ⟨g, hr, _, _⟩
  · rw [hc, spreadObj_nil]
    exact getField_jobj_objOf item k
  · rw [hr]
    show lookupLast (setField (setField (setField (spreadObj [] (objOf item))
      keyImage _) keyImageFallback g.url) keyGeneratedImage g.url) k = getField item k
    rw [lookupLast_setField_ne _ _ _ _ h3, lookupLast_setField_ne _ _ _ _ h2,
      lookupLast_setField_ne _ _ _ _ h1, spreadObj_nil]
    exact getField_jobj_objOf item k

/-- The loop preserves item count, order, and all fields other than the
three image fields. -/
theorem ensureItemsLoop_frame (or : ImageGenOracles) (lang : Option JsonValue)
    (provider : JStr) (max : Nat) (force : Bool) :
    ∀ (items : List JsonValue) (gc : Nat),
      List.Forall₂ (fun inp outp =>
        ∀ k, k ≠ keyImage → k ≠ keyImageFallback → k ≠ keyGeneratedImage →
          getField outp k = getField inp k)
        items (ensureItemsLoop or lang provider max force gc items)
  | [], _ => List.Forall₂.nil
  | item :: rest, gc => by
    unfold ensureItemsLoop
    by_cases h : gc < max
    · rw [if_pos h]
      refine List.Forall₂.cons ?_ (ensureItemsLoop_frame or lang provider max force rest _)
      intro k h1 h2 h3
      show lookupLast (ensureOneItem or lang provider force item).1 k = getField item k
      exact ensureOneItem_frame or lang provider force item k h1 h2 h3
    · rw [if_neg h]
      refine List.Forall₂.cons ?_ (ensureItemsLoop_frame or lang provider max force rest _)
      intro k h1 h2 h3
      show lookupLast (spreadObj [] (objOf item)) k = getField item k
      rw [spreadObj_nil]
      exact getField_jobj_objOf item k

/-- Claim C10: for a plan carrying an items array, `ensurePlanImages`
returns the spread plan whose `items` is an equally long array, in
order, each output item agreeing with its input item on every field
other than `image`, `image_fallback` and `generated_image`; every plan
field other than `items` reads unchanged. -/
theorem ensurePlanImages_frame (or : ImageGenOracles) (plan : JsonValue)
    (provider : JStr) (max : Nat) (force : Bool) (items : List JsonValue)
    (hplan : getField plan keyItems = some (.jarr items)) :
    ∃ out : List JsonValue,
      ensurePlanImages or plan provider max force =
        .jobj (setField (objOf plan) keyItems (.jarr out))
      ∧ out.length = items.length
      ∧ (∀ k, k ≠ keyItems →
          getField (ensurePlanImages or plan provider max force) k = getField plan k)
      ∧ List.Forall₂ (fun inp outp =>
          ∀ k, k ≠ keyImage → k ≠ keyImageFallback → k ≠ keyGeneratedImage →
            getField outp k = getField inp k)
        items out := by
  refine ⟨ensureItemsLoop or (getField plan ("language".toList))
    provider max force 0 items, ?_, ensureItemsLoop_length or _ provider max force items 0,
    ?_, ensureItemsLoop_frame or _ provider max force items 0⟩
  · simp only [ensurePlanImages, hplan]
  · intro k hk
    simp only [ensurePlanImages, hplan]
    show lookupLast (setField (objOf plan) keyItems _) k = getField plan k
    rw [lookupLast_setField_ne _ _ _ _ hk]
    exact getField_jobj_objOf plan k

/-- Witness for C10 at the concrete plan of the C9 witness. -/
theorem ensurePlanImages_frame_witness :
    ∃ out : List JsonValue,
      ensurePlanImages c9Or c9Plan ("gemini".toList) 2 false =
        .jobj (setField (objOf c9Plan) keyItems (.jarr out))
      ∧ out.length = c9Items.length
      ∧ (∀ k, k ≠ keyItems →
          getField (ensurePlanImages c9Or c9Plan ("gemini".toList) 2 false) k =
            getField c9Plan k)
      ∧ List.Forall₂ (fun inp outp =>
          ∀ k, k ≠ keyImage → k ≠ keyImageFallback → k ≠ keyGeneratedImage →
            getField outp k = getField inp k)
        c9Items out :=
  ensurePlanImages_frame c9Or c9Plan ("gemini".toList) 2 false c9Items rfl

/-! ### The regex salvage of parseResponse (claim C3) -/

/-- An input whose wrapper fails `JSON.parse` and whose `App.js` field
is intact and well escaped, but whose `styles.css` field carries an
invalid escape (`\u12`). -/
def c3Bad : JStr :=
  "\x7b\"App.js\": \"x\", \"styles.css\": \"\\u12\", \x7d".toList

/-- Counterexample to claim C3 as stated: the input needs no fence
stripping, begins with a brace, its brace window fails JSON parsing,
its `App.js` field is intact with the well-escaped body `x` — yet
`parseResponse` returns the failure message, not a sandbox result,
because the ill-escaped `styles.css` capture throws during unescaping. -/
theorem parseResponse_salvage_counterexample :
    cleanedOf c3Bad = c3Bad
    ∧ (cleanedOf c3Bad).take 1 = ['{']
    ∧ idxOfChar c3Bad '{' = some 0
    ∧ lastIdxOfChar c3Bad '}' = some (c3Bad.length - 1)
    ∧ jsonParse (jsSubstring c3Bad 0 (c3Bad.length - 1 + 1)) = none
    ∧ fieldCapture keyAppJs c3Bad = some ['x']
    ∧ unescapeViaJson ['x'] = some ['x']
    ∧ parseResponse (.jstr c3Bad) = [messageResult (.jstr parseFailText)] :=
  ⟨rfl, rfl, rfl, rfl, rfl, rfl, rfl, rfl⟩

/-- Claim C3 amended: for every input that, after fence stripping,
begins with a brace or bracket, whose outermost brace window exists and
fails JSON parsing, whose first `App.js` regex capture unescapes
successfully, and whose first `styles.css` capture (when present) also
unescapes successfully, `parseResponse` returns (without throwing) the
single sandbox result mapping `App.js` to the unescaped capture and
`styles.css` to the unescaped capture or the empty string. -/
theorem parseResponse_salvage (s : JStr) (app : JStr)
    (hlook : ∃ t, jsTrim (cleanedOf s) = '{' :: t ∨ jsTrim (cleanedOf s) = '[' :: t)
    (hbrace : ∃ i j, idxOfChar (cleanedOf s) '{' = some i ∧
      lastIdxOfChar (cleanedOf s) '}' = some j ∧ i < j ∧
      jsonParse (jsSubstring (cleanedOf s) i (j + 1)) = none)
    (happ : fieldCapture keyAppJs (cleanedOf s) = some app)
    (happok : ∃ a, unescapeViaJson app = some a)
    (hcss : fieldCapture keyStylesCss (cleanedOf s) = none ∨
      ∃ css c, fieldCapture keyStylesCss (cleanedOf s) = some css ∧
        unescapeViaJson css = some c) :
    ∃ appCode cssCode, unescapeViaJson app = some appCode ∧
      parseResponse (.jstr s) = [sandboxResult appCode cssCode] ∧
      (fieldCapture keyStylesCss (cleanedOf s) = none → cssCode = []) ∧
      (∀ css, fieldCapture keyStylesCss (cleanedOf s) = some css →
        unescapeViaJson css = some cssCode) := by
  obtain ⟨i, j, hi, hj, hij, hparse⟩ := hbrace
  obtain ⟨appCode, happC⟩ := happok
  have hs : s.isEmpty = false := by
    cases s with
    | nil =>
      exfalso
      rcases hlook with ⟨t, ht | ht⟩ <;> exact List.noConfusion ht
    | cons c rest => rfl
  have hlj : (match jsTrim (cleanedOf s) with
      | '{' :: _ => true
      | '[' :: _ => true
      | _ => false) = true := by
    rcases hlook with ⟨t, ht | ht⟩ <;> (rw [ht]; rfl)
  have hstr : parseResponse (.jstr s) = [parseResponseStr s] := by
    simp [parseResponse, parseResponseCore, hs]
  have hbody : parseResponseStr s = salvageBrokenJson (cleanedOf s) := by
    simp only [parseResponseStr, hlj, eq_self_iff_true, if_true, hi, hj]
    rw [if_pos hij]
    simp only [hparse]
  rcases hcss with hnone | ⟨css, cssCode, hsome, hcssC⟩
  · refine ⟨appCode, [], happC, ?_, fun _ => rfl, ?_⟩
    · rw [hstr, hbody]
      simp only [salvageBrokenJson, happ, happC, hnone]
    · intro css hc
      rw [hnone] at hc
      exact Option.noConfusion hc
  · refine ⟨appCode, cssCode, happC, ?_, ?_, ?_⟩
    · rw [hstr, hbody]
      simp only [salvageBrokenJson, happ, happC, hsome, hcssC]
    · intro hc
      rw [hsome] at hc
      exact Option.noConfusion hc
    · intro css' hc
      rw [hsome] at hc
      rw [← Option.some.inj hc]
      exact hcssC

/-- A broken wrapper with an intact `App.js` field. -/
def c3Good : JStr := "\x7b BROKEN \"App.js\":\"z\" \x7d".toList

/-- Witness for the amended C3: the broken wrapper still salvages into
a sandbox result carrying the unescaped `App.js` body. -/
theorem parseResponse_salvage_witness :
    ∃ appCode cssCode, unescapeViaJson ['z'] = some appCode ∧
      parseResponse (.jstr c3Good) = [sandboxResult appCode cssCode] ∧
      (fieldCapture keyStylesCss (cleanedOf c3Good) = none → cssCode = []) ∧
      (∀ css, fieldCapture keyStylesCss (cleanedOf c3Good) = some css →
        unescapeViaJson css = some cssCode) :=
  parseResponse_salvage c3Good ['z']
    ⟨(cleanedOf c3Good).tail, Or.inl rfl⟩
    ⟨0, c3Good.length - 1, rfl, rfl, by decide, rfl⟩
    rfl ⟨['z'], rfl⟩ (Or.inl rfl)

end GenUI
